import Mathlib

/-! # Expression calculator: tokenizer, shunting-yard converter, tree builder, evaluator

A shallow embedding of `calculator.h` and of the pipeline in `calculator_main.cpp`.

* A C++ `string` is a `List Char`; a `vector<string>` is a list of those.
* A `stack` is a list whose head is the top of the stack.
* A thrown `runtime_error(msg)` is `Except.error msg`.
* `double`, `stod` and the arithmetic of `<cmath>` are not part of the program text: they are
  taken as a parameter (`Arith`), so every statement about `eval` holds for any number model.
-/

set_option autoImplicit false

namespace Calculator

/-- A `std::string`. -/
abbrev Str := List Char

/-- Outcome of a function that may throw `runtime_error`. -/
abbrev Res (α : Type) := Except String α

/-- A string literal as a `std::string`. -/
def str (s : String) : Str := s.toList

/-! ## Messages of the exceptions thrown by the program -/

def msgNegSign : String :=
  "Invalid use of negative sign. The minus sign is incorrectly placed."
def msgInvalidChar : String := "Invalid character in expression"
def msgOpPosition : String := "Operator in invalid position"
def msgParens : String := "Mismatched parentheses"
def msgMalformed : String := "Malformed expression"
def msgDivZero : String := "Division by zero"
def msgUnknownOp : String := "Unknown operator"
def msgEmpty : String := "Empty input"

/-! ## Character and token helpers -/

/-- The function `isdigit` of `<cctype>` on an ASCII character. -/
def isdigit (c : Char) : Bool := decide (48 ≤ c.toNat) && decide (c.toNat ≤ 57)

/-- The test `isdigit(c) || c == '.'` of lines 60 and 77. -/
def isNumChar (c : Char) : Bool := isdigit c || c == '.'

/-- The function `isOperator` (lines 42-44). -/
def isOperator (c : Str) : Bool :=
  c == ['+'] || c == ['-'] || c == ['*'] || c == ['/'] || c == ['^']

/-- The function `precedence` (lines 46-51). -/
def precedence (op : Str) : Int :=
  if op == ['^'] then 3
  else if op == ['*'] || op == ['/'] then 2
  else if op == ['+'] || op == ['-'] then 1
  else 0

/-- Indexing `s[i]` of a `std::string`: the character at `i`, and the terminating `'\0'` at
`i = size()`. -/
def charAt (s : Str) (i : Nat) : Char := s.getD i (Char.ofNat 0)

/-! ## Tokenizer (lines 54-98) -/

/-- The block `if (!num.empty()) { tokens.push_back(num); num.clear(); }` (lines 63-66, 96). -/
def flushNum (tokens : List Str) (num : Str) : List Str :=
  if num.isEmpty then tokens else tokens ++ [num]

/-- The condition `tokens.empty() || isOperator(tokens.back()) || tokens.back() == "("`
of line 73. -/
def negPosition (tokens : List Str) : Bool :=
  match tokens.getLast? with
  | none => true
  | some t => isOperator t || t == ['(']

/-- The `for` loop of `tokenize`. The first argument is `expr` from index `i` on; `skip` counts
the characters already consumed by the look-ahead loop of lines 77-80 (the assignment
`i = j - 1` of line 83 jumps over them). -/
def tokenizeLoop : Str → Nat → List Str → Str → Res (List Str)
  | [], _, tokens, num => .ok (flushNum tokens num)
  | _ :: rest, skip + 1, tokens, num => tokenizeLoop rest skip tokens num
  | c :: rest, 0, tokens, num =>
    if isNumChar c then tokenizeLoop rest 0 tokens (num ++ [c])
    else
      let tokens1 := flushNum tokens num
      if c == ' ' then tokenizeLoop rest 0 tokens1 []
      else if c == '-' && negPosition tokens1 then
        let digits := rest.takeWhile isNumChar
        let negNum := '-' :: digits
        if negNum.length > 1 then tokenizeLoop rest digits.length (tokens1 ++ [negNum]) []
        else .error msgNegSign
      else if isOperator [c] || c == '(' || c == ')' then
        tokenizeLoop rest 0 (tokens1 ++ [[c]]) []
      else .error msgInvalidChar

/-- The function `tokenize` (lines 54-98). -/
def tokenize (expr : Str) : Res (List Str) := tokenizeLoop expr 0 [] []

/-! ## Shunting-yard conversion (lines 101-148) -/

/-- The number test of line 110. -/
def isNumberToken (token : Str) : Bool :=
  isdigit (charAt token 0) ||
    (decide (token.length > 1) && (isdigit (charAt token 1) || charAt token 0 == '-'))

/-- The state of the loop of `datacuration`: `output`, `ops` (top first) and `parenBalance`. -/
structure ConvState where
  output : List Str
  ops : List Str
  parenBalance : Int
deriving DecidableEq, Repr

/-- The `while` loop of lines 117-121. -/
def popHigher (token : Str) : List Str → List Str → List Str × List Str
  | [], output => (output, [])
  | top :: ops, output =>
    if isOperator top && (decide (precedence token ≤ precedence top) && token != ['^']) then
      popHigher token ops (output ++ [top])
    else (output, top :: ops)

/-- The `while` loop of lines 129-132. -/
def popToParen : List Str → List Str → List Str × List Str
  | [], output => (output, [])
  | top :: ops, output =>
    if top != ['('] then popToParen ops (output ++ [top]) else (output, top :: ops)

/-- One iteration of the loop of lines 107-136; `prev` is `tokens[i-1]`, absent when `i == 0`. -/
def convStep (prev : Option Str) (token : Str) (st : ConvState) : Res ConvState :=
  if isNumberToken token then .ok { st with output := st.output ++ [token] }
  else if isOperator token then
    if (match prev with
        | none => true
        | some p => isOperator p || p == ['(']) then .error msgOpPosition
    else
      let r := popHigher token st.ops st.output
      .ok { st with output := r.1, ops := token :: r.2 }
  else if token == ['('] then
    .ok { st with ops := token :: st.ops, parenBalance := st.parenBalance + 1 }
  else if token == [')'] then
    let pb := st.parenBalance - 1
    if pb < 0 then .error msgParens
    else
      let r := popToParen st.ops st.output
      match r.2 with
      | [] => .error msgParens
      | _ :: ops => .ok { output := r.1, ops := ops, parenBalance := pb }
  else .ok st

/-- The loop of lines 107-136 over the remaining tokens. -/
def convLoop : Option Str → List Str → ConvState → Res ConvState
  | _, [], st => .ok st
  | prev, token :: rest, st =>
    match convStep prev token st with
    | .error e => .error e
    | .ok st1 => convLoop (some token) rest st1

/-- The drain loop of lines 140-145. -/
def drainOps : List Str → List Str → Res (List Str)
  | [], output => .ok output
  | top :: ops, output =>
    if top == ['('] || top == [')'] then .error msgParens
    else drainOps ops (output ++ [top])

/-- The function `datacuration` (lines 101-148). -/
def datacuration (tokens : List Str) : Res (List Str) :=
  match convLoop none tokens { output := [], ops := [], parenBalance := 0 } with
  | .error e => .error e
  | .ok st =>
    if st.parenBalance != 0 then .error msgParens
    else drainOps st.ops st.output

/-! ## Tree builder (lines 151-168) -/

/-- The trees `buildTree` allocates: a `Node` whose two children are null (`leaf`), or a `Node`
whose two children are both set (`node`). -/
inductive Node where
  | leaf (value : Str)
  | node (value : Str) (left right : Node)
deriving DecidableEq, Repr

/-- The loop of lines 153-165 over the remaining tokens of the vector; `st` is the stack. -/
def buildLoop : List Str → List Node → Res (List Node)
  | [], st => .ok st
  | token :: rest, st =>
    if !isOperator token then buildLoop rest (Node.leaf token :: st)
    else
      match st with
      | right :: left :: st1 => buildLoop rest (Node.node token left right :: st1)
      | _ => .error msgMalformed

/-- The function `buildTree` (lines 151-168). -/
def buildTree (pfix : List Str) : Res Node :=
  match buildLoop pfix [] with
  | .error e => .error e
  | .ok [root] => .ok root
  | .ok _ => .error msgMalformed

/-! ## Evaluator (lines 171-188) -/

/-- The number model the evaluator runs on: `double` with `stod`, `+ - * /`, `pow` and the
comparison `r == 0`. `stod` throws (`invalid_argument`, `out_of_range`) on some strings. -/
structure Arith (α : Type) where
  stod : Str → Res α
  add : α → α → α
  sub : α → α → α
  mul : α → α → α
  div : α → α → α
  pow : α → α → α
  isZero : α → Bool

/-- The function `eval` (lines 171-188). -/
def eval {α : Type} (A : Arith α) : Node → Res α
  | .leaf value => A.stod value
  | .node value left right =>
    match eval A left with
    | .error e => .error e
    | .ok l =>
      match eval A right with
      | .error e => .error e
      | .ok r =>
        if value == ['+'] then .ok (A.add l r)
        else if value == ['-'] then .ok (A.sub l r)
        else if value == ['*'] then .ok (A.mul l r)
        else if value == ['/'] then
          if A.isZero r then .error msgDivZero else .ok (A.div l r)
        else if value == ['^'] then .ok (A.pow l r)
        else .error msgUnknownOp

/-! ## The pipeline of `main` (lines 61-67) -/

/-- The body of the `try` block of `main`. -/
def run {α : Type} (A : Arith α) (input : Str) : Res α :=
  if input.isEmpty then .error msgEmpty
  else
    match tokenize input with
    | .error e => .error e
    | .ok tokens =>
      match datacuration tokens with
      | .error e => .error e
      | .ok pfix =>
        match buildTree pfix with
        | .error e => .error e
        | .ok root => eval A root

/-! ## A reference number model

Exact rational arithmetic, used to run the worked examples. `none` stands for a value that is
not a rational number (`pow` with a fractional exponent, or a zero base with a negative one). -/

/-- Value of a string of decimal digits, most significant first, continuing from `acc`. -/
def digitsVal : Nat → Str → Nat
  | acc, [] => acc
  | acc, c :: cs => digitsVal (acc * 10 + (c.toNat - 48)) cs

/-- The decimal numeral `stod` reads at the start of a string made of `-`, digits and `.`:
an optional sign, digits, and an optional `.` followed by digits; at least one digit is needed,
and whatever follows the numeral is ignored. -/
def refStod (s : Str) : Res (Option ℚ) :=
  let neg := s.head? == some '-'
  let body := if neg then s.tail else s
  let ip := body.takeWhile isdigit
  let r1 := body.dropWhile isdigit
  let fp := if r1.head? == some '.' then r1.tail.takeWhile isdigit else []
  if ip.isEmpty && fp.isEmpty then .error "stod"
  else
    let m : ℚ := (digitsVal 0 (ip ++ fp) : ℚ) / (10 : ℚ) ^ fp.length
    .ok (some (if neg then -m else m))

/-- Lifts a binary operation on rationals to the reference values. -/
def refLift (f : ℚ → ℚ → ℚ) : Option ℚ → Option ℚ → Option ℚ
  | some x, some y => some (f x y)
  | _, _ => none

/-- Power in the reference model: defined for integer exponents. -/
def refPow : Option ℚ → Option ℚ → Option ℚ
  | some x, some y =>
    if y.den = 1 then (if x = 0 ∧ y.num < 0 then none else some (x ^ y.num)) else none
  | _, _ => none

/-- The reference number model. -/
def refArith : Arith (Option ℚ) where
  stod := refStod
  add := refLift (· + ·)
  sub := refLift (· - ·)
  mul := refLift (· * ·)
  div := refLift (· / ·)
  pow := refPow
  isZero := fun v => v == some 0

/-! ## The range of `double`

`std::stod` throws `std::out_of_range` (with `what()` equal to `"stod"`) when the numeral it
reads does not fit a `double`. The model below adds that range check to the reference model;
the values it returns stay exact. -/

/-- The least magnitude that rounds to infinity in `double`: half-way between the largest
finite value `(2^53 - 1) * 2^971` and `2^1024`. -/
def doubleOverflow : ℚ := 2 ^ 1024 - 2 ^ 970

/-- The reading of `refStod`, rejected when its magnitude overflows a `double`. -/
def rangeStod (s : Str) : Res (Option ℚ) :=
  match refStod s with
  | .ok (some q) =>
    if doubleOverflow ≤ q ∨ q ≤ -doubleOverflow then .error "stod" else .ok (some q)
  | r => r

/-- The reference number model with the overflow check of `stod`. -/
def rangeArith : Arith (Option ℚ) := { refArith with stod := rangeStod }

/-- The unsigned decimal literal made of 400 digits `9`. -/
def hugeLiteral : Str := List.replicate 400 '9'

deriving instance DecidableEq for Except

/-! ## Vocabulary of the specification -/

/-- An unsigned decimal number literal: digits with at most one `.`, and at least one digit. -/
def isLiteral (a : Str) : Bool :=
  a.all isNumChar && decide (a.count '.' ≤ 1) && a.any isdigit

/-- The five operator characters. -/
def isOpChar (c : Char) : Bool :=
  c == '+' || c == '-' || c == '*' || c == '/' || c == '^'

/-- Direct arithmetic on two numbers: the operation an operator character denotes. -/
def applyOp {α : Type} (A : Arith α) (op : Char) (x y : α) : α :=
  if op = '+' then A.add x y
  else if op = '-' then A.sub x y
  else if op = '*' then A.mul x y
  else if op = '/' then A.div x y
  else A.pow x y

/-- Lines 65-66 of `main`: the tree built from a token vector. -/
def treeOf (tokens : List Str) : Res Node :=
  match datacuration tokens with
  | .error e => .error e
  | .ok pfix => buildTree pfix

/-- An expression tree as the converter sees it: every leaf holds a token that passes the
number test of line 110 and every inner node an operator. -/
def exprTree : Node → Bool
  | .leaf v => isNumberToken v
  | .node v l r => isOperator v && exprTree l && exprTree r

/-- A tree in reverse-Polish shape: every leaf holds a non-operator string and every inner
node an operator. -/
def rpnTree : Node → Bool
  | .leaf v => !isOperator v
  | .node v l r => isOperator v && rpnTree l && rpnTree r

/-- Post-order traversal of a tree. -/
def postorder : Node → List Str
  | .leaf v => [v]
  | .node v l r => postorder l ++ postorder r ++ [v]

/-- An operand in infix form: a leaf is its token, an operator node is put in parentheses. -/
def wrap : Node → List Str
  | .leaf v => [v]
  | .node v l r => ['('] :: (wrap l ++ v :: wrap r) ++ [[')']]

/-- The fully parenthesised infix token sequence of a tree (no parentheses around the root). -/
def render : Node → List Str
  | .leaf v => [v]
  | .node v l r => wrap l ++ v :: wrap r

/-- The last token of `wrap t`. -/
def lastTok : Node → Str
  | .leaf v => v
  | .node _ _ _ => [')']

/-! ## The tokenizer as a one-pass scanner

The same loop with the look-ahead of lines 75-86 unrolled: a `-` in negative-literal position
opens the lexeme `"-"`, the digits that follow are appended one at a time, and the lexeme is
rejected when the next character (or the end of the input) finds it still equal to `"-"`.
`tokenizeLoop_eq_scanAll` proves the two readings equal. -/

/-- State of the scanner: the tokens emitted and the lexeme being accumulated. -/
abbrev ScanState := List Str × Str

/-- The scanner on one character. -/
def scanStep (c : Char) (st : ScanState) : Res ScanState :=
  if isNumChar c then .ok (st.1, st.2 ++ [c])
  else if st.2 == ['-'] then .error msgNegSign
  else
    let tokens1 := flushNum st.1 st.2
    if c == ' ' then .ok (tokens1, [])
    else if c == '-' && negPosition tokens1 then .ok (tokens1, ['-'])
    else if isOperator [c] || c == '(' || c == ')' then .ok (tokens1 ++ [[c]], [])
    else .error msgInvalidChar

/-- The scanner over a string. -/
def scanRun : Str → ScanState → Res ScanState
  | [], st => .ok st
  | c :: rest, st =>
    match scanStep c st with
    | .error e => .error e
    | .ok st1 => scanRun rest st1

/-- The scanner at the end of the input. -/
def scanEnd (st : ScanState) : Res (List Str) :=
  if st.2 == ['-'] then .error msgNegSign else .ok (flushNum st.1 st.2)

/-- The scanner over a whole input. -/
def scanAll (s : Str) (st : ScanState) : Res (List Str) :=
  match scanRun s st with
  | .error e => .error e
  | .ok st1 => scanEnd st1

/-- A character the tokenizer accepts: a digit, `.`, a space, an operator or a parenthesis. -/
def validChar (c : Char) : Bool :=
  isNumChar c || c == ' ' || isOpChar c || c == '(' || c == ')'

/-- A Number token as the tokenizer emits it: a non-empty run of digits and `.`, or `-`
followed by such a run. -/
def isNumLexeme (t : Str) : Bool :=
  match t with
  | [] => false
  | c :: cs => (isNumChar c && cs.all isNumChar) || (c == '-' && !cs.isEmpty && cs.all isNumChar)

/-- A token of one of the four kinds: Number, Operator, `(` or `)`. -/
def tokClass (t : Str) : Bool :=
  isNumLexeme t || isOperator t || t == ['('] || t == [')']

/-- Every operator token `-` of the sequence stands where line 73 finds no negative-literal
position: after a token that is neither an operator nor `(`. -/
def minusOK (tokens : List Str) : Prop :=
  ∀ pre post, tokens = pre ++ ['-'] :: post → negPosition pre = false

/-- The lexeme under accumulation is a run of digits and dots, possibly after a `-`. -/
def lexemeOK (num : Str) : Prop :=
  (∀ c ∈ num, isNumChar c = true) ∨ ∃ ds, num = '-' :: ds ∧ ∀ c ∈ ds, isNumChar c = true

/-- The input `"(-5 + 3) + 9 - 2 + (-2 + -5)"` of the negative-literal example. -/
def negExample : Str := str "(-5 + 3) + 9 - 2 + (-2 + -5)"

/-- The tokens of `negExample`. -/
def negExampleTokens : List Str :=
  [str "(", str "-5", str "+", str "3", str ")", str "+", str "9", str "-", str "2", str "+",
   str "(", str "-2", str "+", str "-5", str ")"]

/-- The input string `"a op b"`. -/
def binaryInput (a : Str) (op : Char) (b : Str) : Str := a ++ ' ' :: op :: ' ' :: b

/-! ## Vocabulary for the converter and the tree builder -/

/-- The test `i == 0 || isOperator(tokens[i-1]) || tokens[i-1] == "("` of line 114. -/
def opMisplaced (prev : Option Str) : Bool :=
  match prev with
  | none => true
  | some p => isOperator p || p == ['(']

/-- The token `tokens[i-1]` once the tokens `pre` have been read after `prev`. -/
def prevAfter (prev : Option Str) (pre : List Str) : Option Str :=
  match pre.getLast? with
  | some t => some t
  | none => prev

/-- The state of `datacuration` before its loop (lines 102-104). -/
def initConv : ConvState := { output := [], ops := [], parenBalance := 0 }

/-- The depth counter of a reverse-Polish scan started at depth `d`: one more for a
non-operator token, one less for an operator token, which needs a depth of at least 2. -/
def rpnDepth : Nat → List Str → Option Nat
  | d, [] => some d
  | d, t :: rest =>
    if isOperator t then (if d < 2 then none else rpnDepth (d - 1) rest)
    else rpnDepth (d + 1) rest

/-- A valid reverse-Polish expression: the scan from depth 0 never meets an operator at a
depth below 2 and ends at depth 1. -/
def validRPN (pfix : List Str) : Bool := rpnDepth 0 pfix == some 1

/-- Number of leaves of a tree. -/
def leafCount : Node → Nat
  | .leaf _ => 1
  | .node _ l r => leafCount l + leafCount r

/-- Number of operator nodes of a tree. -/
def nodeCount : Node → Nat
  | .leaf _ => 0
  | .node _ l r => nodeCount l + nodeCount r + 1

/-- The literals at the leaves of a tree, left to right. -/
def leaves : Node → List Str
  | .leaf v => [v]
  | .node _ l r => leaves l ++ leaves r

/-- The symbols at the operator nodes of a tree. -/
def innerSymbols : Node → List Str
  | .leaf _ => []
  | .node v l r => v :: (innerSymbols l ++ innerSymbols r)

/-- A well-formed decimal numeral: an optional leading `-`, then digits with at most one `.`
and at least one digit. -/
def isNumeral (v : Str) : Bool :=
  match v with
  | '-' :: body => isLiteral body
  | body => isLiteral body

/-- The grammar `E ::= Number | E op E | "(" E ")"` over token sequences; a Number is a Number
token of the tokenizer or a token the converter takes as a number. -/
inductive InfixExpr : List Str → Prop where
  | number (n : Str) : (isNumLexeme n || isNumberToken n) = true → InfixExpr [n]
  | binary (l : List Str) (op : Str) (r : List Str) :
      InfixExpr l → isOperator op = true → InfixExpr r → InfixExpr (l ++ op :: r)
  | paren (e : List Str) : InfixExpr e → InfixExpr (['('] :: e ++ [[')']])

/-- The alternation every token sequence of the grammar obeys: an operand (a Number token,
possibly after some `(`) and then, after any `)`, either the end or an operator and again an
operand. The flag says whether an operand is expected. -/
def alternates : Bool → List Str → Bool
  | e, [] => !e
  | true, t :: ts =>
    if isNumLexeme t || isNumberToken t then alternates false ts
    else if t == ['('] then alternates true ts
    else false
  | false, t :: ts =>
    if isOperator t then alternates true ts
    else if t == [')'] then alternates false ts
    else false

end Calculator

namespace Calculator

/-! ## Basic facts about tokens -/

theorem isOperator_iff (t : Str) :
    isOperator t = true ↔ t = ['+'] ∨ t = ['-'] ∨ t = ['*'] ∨ t = ['/'] ∨ t = ['^'] := by
  simp [isOperator, or_assoc]

theorem isOpChar_iff (c : Char) :
    isOpChar c = true ↔ c = '+' ∨ c = '-' ∨ c = '*' ∨ c = '/' ∨ c = '^' := by
  simp [isOpChar, or_assoc]

theorem isOperator_singleton (c : Char) : isOperator [c] = isOpChar c := by
  simp [isOperator, isOpChar]

theorem isNumberToken_of_isOperator {t : Str} (h : isOperator t = true) :
    isNumberToken t = false := by
  rcases (isOperator_iff t).1 h with h | h | h | h | h <;> subst h <;> decide

theorem isOperator_of_isNumberToken {t : Str} (h : isNumberToken t = true) :
    isOperator t = false := by
  cases h1 : isOperator t with
  | false => rfl
  | true => rw [isNumberToken_of_isOperator h1] at h; cases h

theorem ne_lparen_of_isNumberToken {t : Str} (h : isNumberToken t = true) : (t == ['(']) = false := by
  cases h1 : (t == ['(']) with
  | false => rfl
  | true =>
    have : t = ['('] := by simpa using h1
    subst this; revert h; decide

theorem ne_rparen_of_isNumberToken {t : Str} (h : isNumberToken t = true) : (t == [')']) = false := by
  cases h1 : (t == [')']) with
  | false => rfl
  | true =>
    have : t = [')'] := by simpa using h1
    subst this; revert h; decide

theorem isNumChar_of_isdigit {c : Char} (h : isdigit c = true) : isNumChar c = true := by
  simp [isNumChar, h]

theorem isNumberToken_of_isLiteral {a : Str} (h : isLiteral a = true) : isNumberToken a = true := by
  simp only [isLiteral, Bool.and_eq_true, decide_eq_true_eq] at h
  obtain ⟨⟨hall, hcnt⟩, hany⟩ := h
  cases a with
  | nil => simp at hany
  | cons c cs =>
    by_cases hc : isdigit c = true
    · simp [isNumberToken, charAt, hc]
    · have hdot : c = '.' := by
        have := (List.all_eq_true.1 hall) c (by simp)
        simpa [isNumChar, hc] using this
      subst hdot
      have hcs0 : cs.count '.' = 0 := by
        simp [List.count_cons] at hcnt; exact hcnt
      cases cs with
      | nil => simp [isdigit] at hany
      | cons d ds =>
        have hd : isdigit d = true := by
          have hdn := (List.all_eq_true.1 hall) d (by simp)
          have hne : d ≠ '.' := by
            intro hEq; subst hEq; simp [List.count_cons] at hcs0
          simpa [isNumChar, hne] using hdn
        simp [isNumberToken, charAt, hd]

/-! ## Tokenizer: reading a run of digits -/

theorem tokenizeLoop_numChars (cs rest : Str) (tokens : List Str) (num : Str)
    (h : ∀ c ∈ cs, isNumChar c = true) :
    tokenizeLoop (cs ++ rest) 0 tokens num = tokenizeLoop rest 0 tokens (num ++ cs) := by
  induction cs generalizing num with
  | nil => simp
  | cons c cs ih =>
    have hc : isNumChar c = true := h c (by simp)
    have ih1 := ih (num ++ [c]) (fun d hd => h d (by simp [hd]))
    show tokenizeLoop (c :: (cs ++ rest)) 0 tokens num = _
    rw [tokenizeLoop]
    simp only [hc, if_true]
    rw [ih1]; simp

theorem all_numChar_of_isLiteral {a : Str} (h : isLiteral a = true) :
    ∀ c ∈ a, isNumChar c = true := by
  simp only [isLiteral, Bool.and_eq_true, decide_eq_true_eq] at h
  exact List.all_eq_true.1 h.1.1

theorem ne_nil_of_isNumberToken {a : Str} (h : isNumberToken a = true) : a ≠ [] := by
  intro h0; subst h0; revert h; decide

@[simp] theorem flushNum_nil (tokens : List Str) : flushNum tokens [] = tokens := rfl

theorem flushNum_of_ne_nil (tokens : List Str) {num : Str} (h : num ≠ []) :
    flushNum tokens num = tokens ++ [num] := by
  cases num with
  | nil => exact absurd rfl h
  | cons c cs => simp [flushNum]

theorem negPosition_append_number (tokens : List Str) {a : Str} (h : isNumberToken a = true) :
    negPosition (tokens ++ [a]) = false := by
  simp [negPosition, isOperator_of_isNumberToken h, ne_lparen_of_isNumberToken h]

theorem tokenize_binaryInput (a b : Str) (op : Char) (ha : isLiteral a = true)
    (hb : isLiteral b = true) (hop : isOpChar op = true) :
    tokenize (binaryInput a op b) = .ok [a, [op], b] := by
  have hna := isNumberToken_of_isLiteral ha
  have hnb := isNumberToken_of_isLiteral hb
  have hneg := negPosition_append_number [] hna
  have h1 := tokenizeLoop_numChars a (' ' :: op :: ' ' :: b) [] [] (all_numChar_of_isLiteral ha)
  have h2 := tokenizeLoop_numChars b [] [a, [op]] [] (all_numChar_of_isLiteral hb)
  simp only [List.append_nil, List.nil_append] at h1 h2 hneg
  unfold tokenize binaryInput
  rw [h1]
  rcases (isOpChar_iff op).1 hop with h | h | h | h | h <;> subst h <;>
    simp [tokenizeLoop, isNumChar, isdigit, flushNum_of_ne_nil _ (ne_nil_of_isNumberToken hna),
      flushNum_of_ne_nil _ (ne_nil_of_isNumberToken hnb), isOperator, hneg, h2]

/-! ## Converter: single steps -/

theorem convStep_number (prev : Option Str) (t : Str) (st : ConvState)
    (h : isNumberToken t = true) :
    convStep prev t st = .ok { st with output := st.output ++ [t] } := by
  simp [convStep, h]

theorem convStep_operator (p t : Str) (st : ConvState) (h : isOperator t = true)
    (hp1 : isOperator p = false) (hp2 : (p == ['(']) = false) :
    convStep (some p) t st =
      .ok { st with output := (popHigher t st.ops st.output).1,
                    ops := t :: (popHigher t st.ops st.output).2 } := by
  simp [convStep, h, isNumberToken_of_isOperator h, hp1, hp2]

theorem convStep_lparen (prev : Option Str) (st : ConvState) :
    convStep prev ['('] st =
      .ok { st with ops := ['('] :: st.ops, parenBalance := st.parenBalance + 1 } := by
  simp [convStep, isNumberToken, isOperator, charAt, isdigit]

theorem convStep_rparen (prev : Option Str) (st : ConvState) :
    convStep prev [')'] st =
      if st.parenBalance - 1 < 0 then .error msgParens
      else
        match (popToParen st.ops st.output).2 with
        | [] => .error msgParens
        | _ :: ops => .ok { output := (popToParen st.ops st.output).1, ops := ops,
                            parenBalance := st.parenBalance - 1 } := by
  simp [convStep, isNumberToken, isOperator, charAt, isdigit]

theorem precedence_le_three (t : Str) : precedence t ≤ 3 := by
  unfold precedence; split_ifs <;> omega

theorem precedence_caret : precedence ['^'] = 3 := by decide

theorem run_of_stages {α : Type} (A : Arith α) {input : Str} {tokens pfix : List Str} {t : Node}
    (h0 : input ≠ []) (h1 : tokenize input = .ok tokens) (h2 : datacuration tokens = .ok pfix)
    (h3 : buildTree pfix = .ok t) : run A input = eval A t := by
  cases input with
  | nil => exact absurd rfl h0
  | cons c cs => simp [run, h1, h2, h3]

theorem run_of_tree {α : Type} (A : Arith α) {input : Str} {tokens : List Str} {t : Node}
    (h0 : input ≠ []) (h1 : tokenize input = .ok tokens) (h2 : treeOf tokens = .ok t) :
    run A input = eval A t := by
  unfold treeOf at h2
  cases hd : datacuration tokens with
  | error e => rw [hd] at h2; cases h2
  | ok pfix => rw [hd] at h2; exact run_of_stages A h0 h1 hd h2

theorem datacuration_binary (a b op : Str) (ha : isNumberToken a = true)
    (hb : isNumberToken b = true) (hop : isOperator op = true) :
    datacuration [a, op, b] = .ok [a, b, op] := by
  have hop1 : op ≠ ['('] := by intro h; subst h; revert hop; decide
  have hop2 : op ≠ [')'] := by intro h; subst h; revert hop; decide
  simp [datacuration, convLoop, convStep_number, convStep_operator, ha, hb, hop,
    isOperator_of_isNumberToken ha, ne_lparen_of_isNumberToken ha, popHigher, drainOps, hop1, hop2]

theorem buildTree_binary (a b op : Str) (ha : isNumberToken a = true)
    (hb : isNumberToken b = true) (hop : isOperator op = true) :
    buildTree [a, b, op] = .ok (.node op (.leaf a) (.leaf b)) := by
  simp [buildTree, buildLoop, isOperator_of_isNumberToken ha, isOperator_of_isNumberToken hb, hop]

/-- Claim C1, counterexample. The literal of 400 digits `9` is an unsigned decimal number
literal; the pipeline on `"999...9 + 1"` tokenizes it, converts it and builds the tree
`+(999...9, 1)`, and then fails: `stod` throws on the first leaf, whose value is out of the
range of `double`, so no value is returned. -/
theorem C1_literal_out_of_range :
    isLiteral hugeLiteral = true ∧ isLiteral (str "1") = true ∧
    tokenize (binaryInput hugeLiteral '+' (str "1")) = .ok [hugeLiteral, ['+'], str "1"] ∧
    treeOf [hugeLiteral, ['+'], str "1"]
      = .ok (.node ['+'] (.leaf hugeLiteral) (.leaf (str "1"))) ∧
    rangeStod hugeLiteral = .error "stod" ∧
    run rangeArith (binaryInput hugeLiteral '+' (str "1")) = .error "stod" := by
  refine ⟨by decide!, by decide, by decide!, by decide!, by decide!, by decide!⟩

/-- Claim C1, amended. For unsigned decimal literals `a` and `b` that `stod` reads as the
numbers `x` and `y` (literals within the range of `double`), and an operator `op` (with `y`
non-zero for `/`), the pipeline on the string `"a op b"` tokenizes to `[a, op, b]`, converts
to `[a, b, op]`, builds the tree `op(a, b)` and returns the direct arithmetic result
`x op y`. -/
theorem C1_binary_expression {α : Type} (A : Arith α) (a b : Str) (op : Char) (x y : α)
    (ha : isLiteral a = true) (hb : isLiteral b = true) (hop : isOpChar op = true)
    (hx : A.stod a = .ok x) (hy : A.stod b = .ok y)
    (hz : op = '/' → A.isZero y = false) :
    tokenize (binaryInput a op b) = .ok [a, [op], b] ∧
    datacuration [a, [op], b] = .ok [a, b, [op]] ∧
    buildTree [a, b, [op]] = .ok (.node [op] (.leaf a) (.leaf b)) ∧
    run A (binaryInput a op b) = .ok (applyOp A op x y) := by
  have hna := isNumberToken_of_isLiteral ha
  have hnb := isNumberToken_of_isLiteral hb
  have hopt : isOperator [op] = true := by rw [isOperator_singleton]; exact hop
  have h1 := tokenize_binaryInput a b op ha hb hop
  have h2 := datacuration_binary a b [op] hna hnb hopt
  have h3 := buildTree_binary a b [op] hna hnb hopt
  refine ⟨h1, h2, h3, ?_⟩
  have hne : binaryInput a op b ≠ [] := by simp [binaryInput]
  rw [run_of_stages A hne h1 h2 h3]
  rcases (isOpChar_iff op).1 hop with h | h | h | h | h <;> subst h <;>
    simp [eval, hx, hy, applyOp]
  exact hz rfl

/-- Witness of C1 (amended): `"3 + 5"` gives 8 in the reference number model. -/
theorem C1_binary_expression_witness :
    binaryInput (str "3") '+' (str "5") = str "3 + 5" ∧
    applyOp refArith '+' (some 3) (some 5) = some 8 ∧
    tokenize (binaryInput (str "3") '+' (str "5")) = .ok [str "3", ['+'], str "5"] ∧
    datacuration [str "3", ['+'], str "5"] = .ok [str "3", str "5", ['+']] ∧
    buildTree [str "3", str "5", ['+']] = .ok (.node ['+'] (.leaf (str "3")) (.leaf (str "5"))) ∧
    run refArith (binaryInput (str "3") '+' (str "5")) =
      .ok (applyOp refArith '+' (some 3) (some 5)) :=
  ⟨by decide, by decide!,
   C1_binary_expression refArith (str "3") (str "5") '+' (some 3) (some 5)
      (by decide) (by decide) (by decide) (by decide!) (by decide!) (by decide)⟩

/-! ## Precedence and associativity on three operands -/

theorem treeOf_three (a b c op1 op2 : Str) (ha : isNumberToken a = true)
    (hb : isNumberToken b = true) (hc : isNumberToken c = true)
    (h1 : isOperator op1 = true) (h2 : isOperator op2 = true) :
    treeOf [a, op1, b, op2, c] =
      if precedence op2 ≤ precedence op1 ∧ op2 ≠ ['^'] then
        .ok (.node op2 (.node op1 (.leaf a) (.leaf b)) (.leaf c))
      else .ok (.node op1 (.leaf a) (.node op2 (.leaf b) (.leaf c))) := by
  have n1 : op1 ≠ ['('] := by intro h; subst h; revert h1; decide
  have n2 : op1 ≠ [')'] := by intro h; subst h; revert h1; decide
  have n3 : op2 ≠ ['('] := by intro h; subst h; revert h2; decide
  have n4 : op2 ≠ [')'] := by intro h; subst h; revert h2; decide
  by_cases hcond : precedence op2 ≤ precedence op1 ∧ op2 ≠ ['^']
  · simp [treeOf, datacuration, convLoop, convStep_number, convStep_operator, ha, hb, hc, h1, h2,
      isOperator_of_isNumberToken ha, ne_lparen_of_isNumberToken ha,
      isOperator_of_isNumberToken hb, ne_lparen_of_isNumberToken hb,
      isOperator_of_isNumberToken hc, popHigher, drainOps, n1, n2, n3, n4, hcond,
      buildTree, buildLoop]
  · have hcond1 : ¬(precedence op2 ≤ precedence op1 ∧ ¬op2 = ['^']) := hcond
    simp only [treeOf, datacuration, convLoop, convStep_number, convStep_operator, ha, hb, hc, h1,
      h2, isOperator_of_isNumberToken ha, ne_lparen_of_isNumberToken ha,
      isOperator_of_isNumberToken hb, ne_lparen_of_isNumberToken hb,
      isOperator_of_isNumberToken hc, popHigher, Bool.and_eq_true, decide_eq_true_eq,
      bne_iff_ne, ne_eq, Bool.true_and, if_neg hcond1, if_neg hcond]
    simp [drainOps, n1, n2, n3, n4, buildTree, buildLoop, isOperator_of_isNumberToken ha,
      isOperator_of_isNumberToken hb, isOperator_of_isNumberToken hc, h1, h2]

/-- Higher precedence binds tighter, for operands that pass the number test of line 110: when
`op2` has a higher precedence than `op1`, the tokens `a op1 b op2 c` build
`op1(a, op2(b, c))` and the tokens `a op2 b op1 c` build `op1(op2(a, b), c)`; the precedences
are `^`=3, `*` and `/`=2, `+` and `-`=1; and `"10 + 2 * 6"` evaluates to 22. -/
theorem precedence_binds_tighter (a b c op1 op2 : Str) (ha : isNumberToken a = true)
    (hb : isNumberToken b = true) (hc : isNumberToken c = true)
    (h1 : isOperator op1 = true) (h2 : isOperator op2 = true)
    (hp : precedence op1 < precedence op2) :
    treeOf [a, op1, b, op2, c] = .ok (.node op1 (.leaf a) (.node op2 (.leaf b) (.leaf c))) ∧
    treeOf [a, op2, b, op1, c] = .ok (.node op1 (.node op2 (.leaf a) (.leaf b)) (.leaf c)) ∧
    precedence ['^'] = 3 ∧ precedence ['*'] = 2 ∧ precedence ['/'] = 2 ∧
    precedence ['+'] = 1 ∧ precedence ['-'] = 1 ∧
    run refArith (str "10 + 2 * 6") = .ok (some 22) := by
  refine ⟨?_, ?_, by decide, by decide, by decide, by decide, by decide, by decide!⟩
  · rw [treeOf_three a b c op1 op2 ha hb hc h1 h2, if_neg]
    intro h; omega
  · rw [treeOf_three a b c op2 op1 ha hb hc h2 h1, if_pos]
    refine ⟨by omega, ?_⟩
    intro h; subst h
    have := precedence_le_three op2
    rw [precedence_caret] at hp; omega

/-- Higher precedence binds tighter on the tokens of `10 + 2 * 6` and `10 * 2 + 6`. -/
theorem precedence_binds_tighter_example :
    treeOf [str "10", str "+", str "2", str "*", str "6"] =
      .ok (.node (str "+") (.leaf (str "10")) (.node (str "*") (.leaf (str "2")) (.leaf (str "6")))) ∧
    treeOf [str "10", str "*", str "2", str "+", str "6"] =
      .ok (.node (str "+") (.node (str "*") (.leaf (str "10")) (.leaf (str "2"))) (.leaf (str "6"))) :=
  ⟨(precedence_binds_tighter (str "10") (str "2") (str "6") (str "+") (str "*")
      (by decide) (by decide) (by decide) (by decide) (by decide) (by decide)).1,
   (precedence_binds_tighter (str "10") (str "2") (str "6") (str "+") (str "*")
      (by decide) (by decide) (by decide) (by decide) (by decide) (by decide)).2.1⟩

/-- Exponentiation is right-associative, for operands that pass the number test of line 110:
the tokens `a ^ b ^ c` build `^(a, ^(b, c))`, and `"2 ^ 3 ^ 2"` evaluates to 512, not 64. -/
theorem caret_right_assoc (a b c : Str) (ha : isNumberToken a = true)
    (hb : isNumberToken b = true) (hc : isNumberToken c = true) :
    treeOf [a, ['^'], b, ['^'], c] = .ok (.node ['^'] (.leaf a) (.node ['^'] (.leaf b) (.leaf c))) ∧
    run refArith (str "2 ^ 3 ^ 2") = .ok (some 512) ∧
    run refArith (str "2 ^ 3 ^ 2") ≠ .ok (some 64) := by
  refine ⟨?_, by decide!, by decide!⟩
  rw [treeOf_three a b c ['^'] ['^'] ha hb hc (by decide) (by decide), if_neg]
  simp

/-- Right associativity on the tokens of `2 ^ 3 ^ 2`. -/
theorem caret_right_assoc_example :
    treeOf [str "2", ['^'], str "3", ['^'], str "2"] =
      .ok (.node ['^'] (.leaf (str "2")) (.node ['^'] (.leaf (str "3")) (.leaf (str "2")))) :=
  (caret_right_assoc (str "2") (str "3") (str "2") (by decide) (by decide) (by decide)).1

/-- The other operators are left-associative, for operands that pass the number test of line
110: for `op1`, `op2` of equal precedence taken from `+ -` or from `* /`, the tokens
`a op1 b op2 c` build `op2(op1(a, b), c)`. -/
theorem left_assoc (a b c op1 op2 : Str) (ha : isNumberToken a = true)
    (hb : isNumberToken b = true) (hc : isNumberToken c = true)
    (hops : (op1 ∈ [['+'], ['-']] ∧ op2 ∈ [['+'], ['-']]) ∨
            (op1 ∈ [['*'], ['/']] ∧ op2 ∈ [['*'], ['/']])) :
    precedence op1 = precedence op2 ∧
    treeOf [a, op1, b, op2, c] = .ok (.node op2 (.node op1 (.leaf a) (.leaf b)) (.leaf c)) := by
  have key : isOperator op1 = true ∧ isOperator op2 = true ∧
      precedence op1 = precedence op2 ∧ op2 ≠ ['^'] := by
    simp only [List.mem_cons, List.mem_singleton, List.not_mem_nil, or_false] at hops
    rcases hops with ⟨h1 | h1, h2 | h2⟩ | ⟨h1 | h1, h2 | h2⟩ <;> subst h1 <;> subst h2 <;> decide
  obtain ⟨h1, h2, hp, hne⟩ := key
  refine ⟨hp, ?_⟩
  rw [treeOf_three a b c op1 op2 ha hb hc h1 h2, if_pos]
  exact ⟨by omega, hne⟩

/-- Left associativity: `8 - 3 - 2` groups as `(8 - 3) - 2`. -/
theorem left_assoc_example :
    precedence (str "-") = precedence (str "-") ∧
    treeOf [str "8", str "-", str "3", str "-", str "2"] =
      .ok (.node (str "-") (.node (str "-") (.leaf (str "8")) (.leaf (str "3"))) (.leaf (str "2"))) :=
  left_assoc (str "8") (str "3") (str "2") (str "-") (str "-")
    (by decide) (by decide) (by decide) (by decide)

/-! ### Number tokens the converter does not recognise

The tokenizer emits every run of digits and dots as a Number token, but the number test of
line 110 misses the lexemes that start with `.` without a digit next, and the converter then
skips them. The three theorems below run the code on such operands. -/

/-- Claim C2, the code at the failing input `". + 2 * 6"`: the tokens are `. + 2 * 6` with the
Number tokens `.`, `2`, `6` and `*` of higher precedence than `+`; the converter skips `.`
and returns `2 6 * +`, and the tree builder fails instead of building `+(., *(2, 6))`. -/
theorem C2_number_token_dropped :
    tokenize (str ". + 2 * 6") = .ok [str ".", str "+", str "2", str "*", str "6"] ∧
    isNumLexeme (str ".") = true ∧ isNumLexeme (str "2") = true ∧
    isNumLexeme (str "6") = true ∧
    precedence (str "+") < precedence (str "*") ∧
    isNumberToken (str ".") = false ∧
    datacuration [str ".", str "+", str "2", str "*", str "6"]
      = .ok [str "2", str "6", str "*", str "+"] ∧
    treeOf [str ".", str "+", str "2", str "*", str "6"] = .error "Malformed expression" ∧
    run refArith (str ". + 2 * 6") = .error "Malformed expression" := by
  refine ⟨by decide, by decide, by decide, by decide, by decide, by decide, by decide,
    by decide, by decide!⟩

/-- Claim C3, the code at the failing input `"2 ^ ..5 ^ 3"`: the tokens are `2 ^ ..5 ^ 3`
with the Number tokens `2`, `..5`, `3`; the converter skips `..5` and returns `2 3 ^ ^`, and
the tree builder fails instead of building `^(2, ^(..5, 3))`. -/
theorem C3_number_token_dropped :
    tokenize (str "2 ^ ..5 ^ 3") = .ok [str "2", str "^", str "..5", str "^", str "3"] ∧
    isNumLexeme (str "2") = true ∧ isNumLexeme (str "..5") = true ∧
    isNumLexeme (str "3") = true ∧
    isNumberToken (str "..5") = false ∧
    datacuration [str "2", str "^", str "..5", str "^", str "3"]
      = .ok [str "2", str "3", str "^", str "^"] ∧
    treeOf [str "2", str "^", str "..5", str "^", str "3"] = .error "Malformed expression" ∧
    run refArith (str "2 ^ ..5 ^ 3") = .error "Malformed expression" := by
  refine ⟨by decide, by decide, by decide, by decide, by decide, by decide, by decide,
    by decide!⟩

/-- Claim C4, the code at the failing input `"8 - . - 2"`: the tokens are `8 - . - 2` with the
Number tokens `8`, `.`, `2`; the converter skips `.` and returns `8 - 2 -`, and the tree
builder fails instead of building `-(-(8, .), 2)`. -/
theorem C4_number_token_dropped :
    tokenize (str "8 - . - 2") = .ok [str "8", str "-", str ".", str "-", str "2"] ∧
    isNumLexeme (str "8") = true ∧ isNumLexeme (str ".") = true ∧
    isNumLexeme (str "2") = true ∧
    isNumberToken (str ".") = false ∧
    datacuration [str "8", str "-", str ".", str "-", str "2"]
      = .ok [str "8", str "-", str "2", str "-"] ∧
    treeOf [str "8", str "-", str ".", str "-", str "2"] = .error "Malformed expression" ∧
    run refArith (str "8 - . - 2") = .error "Malformed expression" := by
  refine ⟨by decide, by decide, by decide, by decide, by decide, by decide, by decide,
    by decide!⟩

/-! ## Parenthesised expressions -/

theorem convLoop_cons_ok {prev : Option Str} {t : Str} {rest : List Str} {st st1 : ConvState}
    (h : convStep prev t st = .ok st1) :
    convLoop prev (t :: rest) st = convLoop (some t) rest st1 := by
  simp [convLoop, h]

theorem lastTok_not_operator {t : Node} (h : exprTree t = true) :
    isOperator (lastTok t) = false := by
  cases t with
  | leaf v => exact isOperator_of_isNumberToken (by simpa [exprTree] using h)
  | node v l r => rfl

theorem lastTok_ne_lparen {t : Node} (h : exprTree t = true) :
    (lastTok t == ['(']) = false := by
  cases t with
  | leaf v => exact ne_lparen_of_isNumberToken (by simpa [exprTree] using h)
  | node v l r => rfl

theorem popHigher_lparen (tok : Str) (ops out : List Str) :
    popHigher tok (['('] :: ops) out = (out, ['('] :: ops) := by
  simp [popHigher, isOperator]

theorem popToParen_operator {o : Str} (ho : isOperator o = true) (ops out : List Str) :
    popToParen (o :: ['('] :: ops) out = (out ++ [o], ['('] :: ops) := by
  have hne : o ≠ ['('] := by intro h; subst h; revert ho; decide
  simp [popToParen, hne]

theorem convLoop_wrap (t : Node) (h : exprTree t = true) :
    ∀ (prev : Option Str) (rest : List Str) (st : ConvState), 0 ≤ st.parenBalance →
      convLoop prev (wrap t ++ rest) st =
        convLoop (some (lastTok t)) rest { st with output := st.output ++ postorder t } := by
  induction t with
  | leaf v =>
    intro prev rest st _
    have hv : isNumberToken v = true := by simpa [exprTree] using h
    simp [wrap, lastTok, postorder, convLoop_cons_ok (convStep_number prev v st hv)]
  | node v l r ihl ihr =>
    intro prev rest st hpb
    simp only [exprTree, Bool.and_eq_true] at h
    obtain ⟨⟨hv, hl⟩, hr⟩ := h
    have e1 : wrap (Node.node v l r) ++ rest
        = ['('] :: (wrap l ++ (v :: (wrap r ++ ([')'] :: rest)))) := by
      simp [wrap]
    rw [e1, convLoop_cons_ok (convStep_lparen prev st)]
    rw [ihl hl _ _ _ (by show (0 : Int) ≤ st.parenBalance + 1; omega)]
    rw [convLoop_cons_ok (convStep_operator (lastTok l) v _ hv (lastTok_not_operator hl)
      (lastTok_ne_lparen hl))]
    rw [ihr hr _ _ _ (by show (0 : Int) ≤ st.parenBalance + 1; omega)]
    have hstep : convStep (some (lastTok r)) [')']
        { output := st.output ++ postorder l ++ postorder r,
          ops := v :: ['('] :: st.ops, parenBalance := st.parenBalance + 1 }
        = .ok { st with output := st.output ++ postorder (Node.node v l r) } := by
      rw [convStep_rparen]
      have hn : ¬ (st.parenBalance + 1 - 1 < 0) := by omega
      simp only [hn, if_false, popToParen_operator hv]
      simp [postorder]
    simp only [popHigher_lparen]
    rw [convLoop_cons_ok hstep]
    rfl

theorem datacuration_render (t : Node) (h : exprTree t = true) :
    datacuration (render t) = .ok (postorder t) := by
  cases t with
  | leaf v =>
    have hv : isNumberToken v = true := by simpa [exprTree] using h
    simp [datacuration, render, postorder, convLoop, convStep_number _ _ _ hv, drainOps]
  | node v l r =>
    simp only [exprTree, Bool.and_eq_true] at h
    obtain ⟨⟨hv, hl⟩, hr⟩ := h
    have hne1 : v ≠ ['('] := by intro h; subst h; revert hv; decide
    have hne2 : v ≠ [')'] := by intro h; subst h; revert hv; decide
    have e2 : wrap r = wrap r ++ [] := by simp
    unfold datacuration render
    rw [convLoop_wrap l hl _ _ _ (by simp)]
    rw [convLoop_cons_ok (convStep_operator (lastTok l) v _ hv (lastTok_not_operator hl)
      (lastTok_ne_lparen hl))]
    rw [e2, convLoop_wrap r hr _ _ _ (by simp)]
    simp [convLoop, popHigher, drainOps, postorder, hne1, hne2]

theorem buildLoop_postorder (t : Node) (h : rpnTree t = true) :
    ∀ (rest : List Str) (st : List Node),
      buildLoop (postorder t ++ rest) st = buildLoop rest (t :: st) := by
  induction t with
  | leaf v =>
    intro rest st
    have hv : isOperator v = false := by simpa [rpnTree] using h
    simp [postorder, buildLoop, hv]
  | node v l r ihl ihr =>
    intro rest st
    simp only [rpnTree, Bool.and_eq_true] at h
    obtain ⟨⟨hv, hl⟩, hr⟩ := h
    have e1 : postorder (Node.node v l r) ++ rest
        = postorder l ++ (postorder r ++ (v :: rest)) := by simp [postorder]
    rw [e1, ihl hl, ihr hr]
    simp [buildLoop, hv]

theorem buildTree_postorder (t : Node) (h : rpnTree t = true) :
    buildTree (postorder t) = .ok t := by
  have := buildLoop_postorder t h [] []
  simp only [List.append_nil] at this
  simp [buildTree, this, buildLoop]

theorem rpnTree_of_exprTree (t : Node) (h : exprTree t = true) : rpnTree t = true := by
  induction t with
  | leaf v =>
    have hv : isNumberToken v = true := by simpa [exprTree] using h
    simp [rpnTree, isOperator_of_isNumberToken hv]
  | node v l r ihl ihr =>
    simp only [exprTree, Bool.and_eq_true] at h
    simp [rpnTree, h.1.1, ihl h.1.2, ihr h.2]

/-- Parentheses determine grouping, for leaves that pass the number test of line 110: for
every tree `t` with such leaves and operators at the inner nodes, the converter turns the
parenthesised infix rendering of `t` into the post-order traversal of `t`, and the tree
builder turns that back into `t`. -/
theorem parentheses_grouping (t : Node) (h : exprTree t = true) :
    datacuration (render t) = .ok (postorder t) ∧ buildTree (postorder t) = .ok t ∧
    treeOf (render t) = .ok t := by
  have h1 := datacuration_render t h
  have h2 := buildTree_postorder t (rpnTree_of_exprTree t h)
  exact ⟨h1, h2, by simp [treeOf, h1, h2]⟩

/-- Parentheses on `"100 * (2 + 12)"`: it gives the tree `*(100, +(2, 12))` and evaluates to
1400. -/
theorem parentheses_grouping_example :
    tokenize (str "100 * (2 + 12)") =
      .ok (render (.node ['*'] (.leaf (str "100")) (.node ['+'] (.leaf (str "2")) (.leaf (str "12"))))) ∧
    run refArith (str "100 * (2 + 12)") = .ok (some 1400) ∧
    (datacuration (render (.node ['*'] (.leaf (str "100")) (.node ['+'] (.leaf (str "2")) (.leaf (str "12")))))
        = .ok (postorder (.node ['*'] (.leaf (str "100")) (.node ['+'] (.leaf (str "2")) (.leaf (str "12"))))) ∧
      buildTree (postorder (.node ['*'] (.leaf (str "100")) (.node ['+'] (.leaf (str "2")) (.leaf (str "12")))))
        = .ok (.node ['*'] (.leaf (str "100")) (.node ['+'] (.leaf (str "2")) (.leaf (str "12")))) ∧
      treeOf (render (.node ['*'] (.leaf (str "100")) (.node ['+'] (.leaf (str "2")) (.leaf (str "12")))))
        = .ok (.node ['*'] (.leaf (str "100")) (.node ['+'] (.leaf (str "2")) (.leaf (str "12"))))) :=
  ⟨by decide, by decide!,
   parentheses_grouping
     (.node ['*'] (.leaf (str "100")) (.node ['+'] (.leaf (str "2")) (.leaf (str "12")))) (by decide)⟩

/-- Claim C5, the code at the failing input `"100 * (. + 12)"`: its tokens are the rendering
of the tree `*(100, +(., 12))`, whose leaves are the Number tokens `100`, `.`, `12`; the
converter skips `.` and returns `100 12 + *`, not the post-order traversal `100 . 12 + *`,
and the tree builder fails instead of returning the tree. -/
theorem C5_number_token_dropped :
    tokenize (str "100 * (. + 12)")
      = .ok (render (.node ['*'] (.leaf (str "100"))
          (.node ['+'] (.leaf (str ".")) (.leaf (str "12"))))) ∧
    isNumLexeme (str "100") = true ∧ isNumLexeme (str ".") = true ∧
    isNumLexeme (str "12") = true ∧
    isNumberToken (str ".") = false ∧
    postorder (.node ['*'] (.leaf (str "100")) (.node ['+'] (.leaf (str ".")) (.leaf (str "12"))))
      = [str "100", str ".", str "12", str "+", str "*"] ∧
    datacuration (render (.node ['*'] (.leaf (str "100"))
        (.node ['+'] (.leaf (str ".")) (.leaf (str "12")))))
      = .ok [str "100", str "12", str "+", str "*"] ∧
    treeOf (render (.node ['*'] (.leaf (str "100"))
        (.node ['+'] (.leaf (str ".")) (.leaf (str "12")))))
      = .error "Malformed expression" ∧
    run refArith (str "100 * (. + 12)") = .error "Malformed expression" := by
  refine ⟨by decide, by decide, by decide, by decide, by decide, by decide, by decide,
    by decide, by decide!⟩

/-! ## Tokenizer: equivalence with the one-pass scanner -/

theorem scanAll_nil (st : ScanState) : scanAll [] st = scanEnd st := rfl

theorem scanAll_cons (c : Char) (rest : Str) (st : ScanState) :
    scanAll (c :: rest) st =
      match scanStep c st with
      | .error e => .error e
      | .ok st1 => scanAll rest st1 := by
  unfold scanAll
  rw [scanRun]
  cases scanStep c st <;> rfl

theorem scanRun_append (p q : Str) (st : ScanState) :
    scanRun (p ++ q) st =
      match scanRun p st with
      | .error e => .error e
      | .ok st1 => scanRun q st1 := by
  induction p generalizing st with
  | nil => rfl
  | cons c p ih =>
    show scanRun (c :: (p ++ q)) st = _
    rw [scanRun, scanRun]
    cases scanStep c st with
    | error e => rfl
    | ok st1 => exact ih st1

theorem scanAll_append (p q : Str) (st : ScanState) :
    scanAll (p ++ q) st =
      match scanRun p st with
      | .error e => .error e
      | .ok st1 => scanAll q st1 := by
  unfold scanAll
  rw [scanRun_append]
  cases scanRun p st <;> rfl

theorem scanStep_numChar {c : Char} (h : isNumChar c = true) (st : ScanState) :
    scanStep c st = .ok (st.1, st.2 ++ [c]) := by
  simp [scanStep, h]

theorem scanRun_numChars (ds : Str) (h : ∀ c ∈ ds, isNumChar c = true) (st : ScanState) :
    scanRun ds st = .ok (st.1, st.2 ++ ds) := by
  induction ds generalizing st with
  | nil => simp [scanRun]
  | cons c ds ih =>
    rw [scanRun, scanStep_numChar (h c (by simp))]
    simp only
    rw [ih (fun d hd => h d (by simp [hd]))]
    simp

theorem takeWhile_eq_nil_cases {rest : Str} (h : rest.takeWhile isNumChar = []) :
    rest = [] ∨ ∃ c r, rest = c :: r ∧ isNumChar c = false := by
  cases rest with
  | nil => exact Or.inl rfl
  | cons c r =>
    refine Or.inr ⟨c, r, rfl, ?_⟩
    cases hc : isNumChar c with
    | false => rfl
    | true => simp [List.takeWhile, hc] at h

theorem dropWhile_head_not_numChar (rest : Str) :
    (rest.dropWhile isNumChar).takeWhile isNumChar = [] := by
  induction rest with
  | nil => rfl
  | cons c r ih =>
    cases hc : isNumChar c with
    | false => simp [List.dropWhile, List.takeWhile, hc]
    | true => simpa [List.dropWhile, hc] using ih

theorem scanAll_minus_stuck (tokens : List Str) {rest : Str}
    (h : rest.takeWhile isNumChar = []) : scanAll rest (tokens, ['-']) = .error msgNegSign := by
  rcases takeWhile_eq_nil_cases h with h0 | ⟨c, r, h0, hc⟩
  · subst h0; rfl
  · subst h0; rw [scanAll_cons]; simp [scanStep, hc]

theorem scanAll_flush (tokens : List Str) (num : Str) {rest : Str}
    (h : rest.takeWhile isNumChar = []) (hn : num ≠ ['-']) :
    scanAll rest (tokens, num) = scanAll rest (flushNum tokens num, []) := by
  rcases takeWhile_eq_nil_cases h with h0 | ⟨c, r, h0, hc⟩
  · subst h0; simp [scanAll_nil, scanEnd, hn]
  · subst h0; rw [scanAll_cons, scanAll_cons]; simp [scanStep, hc, hn]

theorem tokenizeLoop_skip (ds rest : Str) (tokens : List Str) (num : Str) :
    tokenizeLoop (ds ++ rest) ds.length tokens num = tokenizeLoop rest 0 tokens num := by
  induction ds with
  | nil => rfl
  | cons d ds ih =>
    show tokenizeLoop (d :: (ds ++ rest)) (ds.length + 1) tokens num = _
    rw [tokenizeLoop]; exact ih

theorem ne_minus_of_numChars {num : Str} (h : ∀ c ∈ num, isNumChar c = true) : num ≠ ['-'] := by
  intro h0; subst h0
  have := h '-' (by simp)
  revert this; decide

theorem tokenizeLoop_eq_scanAll (n : Nat) :
    ∀ (s : Str) (tokens : List Str) (num : Str), s.length ≤ n →
      (∀ c ∈ num, isNumChar c = true) → tokenizeLoop s 0 tokens num = scanAll s (tokens, num) := by
  induction n with
  | zero =>
    intro s tokens num hlen hnum
    have : s = [] := List.length_eq_zero.1 (Nat.le_zero.1 hlen)
    subst this
    simp [tokenizeLoop, scanAll_nil, scanEnd, ne_minus_of_numChars hnum]
  | succ n ih =>
    intro s tokens num hlen hnum
    cases s with
    | nil => simp [tokenizeLoop, scanAll_nil, scanEnd, ne_minus_of_numChars hnum]
    | cons c rest =>
      have hrest : rest.length ≤ n := by simpa using hlen
      have hne := ne_minus_of_numChars hnum
      rw [tokenizeLoop, scanAll_cons]
      by_cases hc : isNumChar c = true
      · simp only [hc, if_true, scanStep_numChar hc]
        exact ih rest tokens (num ++ [c]) hrest (by
          intro d hd
          rcases List.mem_append.1 hd with h1 | h1
          · exact hnum d h1
          · simp at h1; subst h1; exact hc)
      · simp only [hc, scanStep, hne, beq_iff_eq, if_false, Bool.false_eq_true]
        by_cases hsp : c = ' '
        · subst hsp
          simp only [beq_self_eq_true, if_true]
          exact ih rest _ [] hrest (by simp)
        · simp only [beq_iff_eq, hsp, if_false]
          by_cases hneg : (c == '-' && negPosition (flushNum tokens num)) = true
          · simp only [hneg, if_true]
            by_cases hd : rest.takeWhile isNumChar = []
            · simp [hd, scanAll_minus_stuck _ hd]
            · obtain ⟨ds, hds⟩ : ∃ ds, rest.takeWhile isNumChar = ds := ⟨_, rfl⟩
              obtain ⟨r, hr⟩ : ∃ r, rest.dropWhile isNumChar = r := ⟨_, rfl⟩
              have hall : ∀ c ∈ ds, isNumChar c = true := by
                intro d hd1; rw [← hds] at hd1; exact List.mem_takeWhile_imp hd1
              have hsplit : rest = ds ++ r := by
                rw [← hds, ← hr]; exact (List.takeWhile_append_dropWhile isNumChar rest).symm
              have hrt : r.takeWhile isNumChar = [] := by
                rw [← hr]; exact dropWhile_head_not_numChar rest
              have hdl : r.length ≤ n := by
                rw [← hr]
                exact le_trans (List.Sublist.length_le (List.dropWhile_sublist _)) hrest
              rw [hds] at hd ⊢
              have hlen1 : ('-' :: ds).length > 1 := by
                cases ds with
                | nil => exact absurd rfl hd
                | cons x xs => simp
              simp only [hlen1, if_true]
              rw [hsplit, tokenizeLoop_skip, scanAll_append, scanRun_numChars _ hall]
              simp only
              rw [ih _ _ [] hdl (by simp)]
              have e := scanAll_flush (flushNum tokens num) ('-' :: ds) hrt (by
                intro h0
                have : ds = [] := by simpa using h0
                exact hd this)
              rw [flushNum_of_ne_nil _ (List.cons_ne_nil '-' ds)] at e
              show _ = scanAll r (flushNum tokens num, '-' :: ds)
              rw [e]
          · simp only [hneg, if_false, Bool.false_eq_true]
            by_cases hop : (isOperator [c] || c == '(' || c == ')') = true
            · simp only [hop, if_true]
              exact ih rest _ [] hrest (by simp)
            · simp only [hop, if_false, Bool.false_eq_true]

theorem tokenize_eq_scanAll (s : Str) : tokenize s = scanAll s ([], []) :=
  tokenizeLoop_eq_scanAll s.length s [] [] (le_refl _) (by simp)

/-! ## Tokenizer: invariants of the scanner -/

theorem scanEnd_ok_iff (st : ScanState) (T : List Str) :
    scanEnd st = .ok T ↔ st.2 ≠ ['-'] ∧ T = flushNum st.1 st.2 := by
  unfold scanEnd
  by_cases h : st.2 = ['-']
  · rw [if_pos (by rw [h]; rfl)]
    constructor
    · intro h1; cases h1
    · intro h1; exact absurd h h1.1
  · rw [if_neg (by simpa using h)]
    constructor
    · intro h1; cases h1; exact ⟨h, rfl⟩
    · intro h1; rw [h1.2]

/-- The six branches of the scanner on one character. -/
theorem scanStep_cases (c : Char) (st : ScanState) :
    (isNumChar c = true ∧ scanStep c st = .ok (st.1, st.2 ++ [c])) ∨
    (isNumChar c = false ∧ st.2 = ['-'] ∧ scanStep c st = .error msgNegSign) ∨
    (isNumChar c = false ∧ st.2 ≠ ['-'] ∧ c = ' ' ∧
      scanStep c st = .ok (flushNum st.1 st.2, [])) ∨
    (isNumChar c = false ∧ st.2 ≠ ['-'] ∧ c = '-' ∧ negPosition (flushNum st.1 st.2) = true ∧
      scanStep c st = .ok (flushNum st.1 st.2, ['-'])) ∨
    (isNumChar c = false ∧ st.2 ≠ ['-'] ∧ c ≠ ' ' ∧
      (c = '-' → negPosition (flushNum st.1 st.2) = false) ∧
      (isOpChar c = true ∨ c = '(' ∨ c = ')') ∧
      scanStep c st = .ok (flushNum st.1 st.2 ++ [[c]], [])) ∨
    (validChar c = false ∧ st.2 ≠ ['-'] ∧ scanStep c st = .error msgInvalidChar) := by
  by_cases h1 : isNumChar c = true
  · exact Or.inl ⟨h1, by simp [scanStep, h1]⟩
  have h1f : isNumChar c = false := by simpa using h1
  by_cases h2 : st.2 = ['-']
  · exact Or.inr (Or.inl ⟨h1f, h2, by simp [scanStep, h1f, h2]⟩)
  by_cases h3 : c = ' '
  · exact Or.inr (Or.inr (Or.inl ⟨h1f, h2, h3, by
      subst h3; simp only [scanStep, h1f, h2, beq_iff_eq, if_false, Bool.false_eq_true]; rfl⟩))
  by_cases h4 : c = '-' ∧ negPosition (flushNum st.1 st.2) = true
  · exact Or.inr (Or.inr (Or.inr (Or.inl ⟨h1f, h2, h4.1, h4.2, by
      have h4b : (c == '-' && negPosition (flushNum st.1 st.2)) = true := by
        simp [h4.1, h4.2]
      simp only [scanStep, h1f, h2, h3, h4b, beq_iff_eq, if_false, if_true,
        Bool.false_eq_true]⟩)))
  have h4f : (c == '-' && negPosition (flushNum st.1 st.2)) = false := by
    cases h5 : (c == '-' && negPosition (flushNum st.1 st.2)) with
    | false => rfl
    | true =>
      simp only [Bool.and_eq_true, beq_iff_eq] at h5
      exact absurd h5 h4
  by_cases h5 : isOpChar c = true ∨ c = '(' ∨ c = ')'
  · refine Or.inr (Or.inr (Or.inr (Or.inr (Or.inl ⟨h1f, h2, h3, ?_, h5, ?_⟩))))
    · intro hc
      cases h6 : negPosition (flushNum st.1 st.2) with
      | false => rfl
      | true => exact absurd ⟨hc, h6⟩ h4
    · have h5b : (isOperator [c] || c == '(' || c == ')') = true := by
        rw [isOperator_singleton]
        rcases h5 with h5 | h5 | h5 <;> simp [h5]
      simp only [scanStep, h1f, h2, h3, h4f, h5b, beq_iff_eq, if_false, if_true,
        Bool.false_eq_true]
  · refine Or.inr (Or.inr (Or.inr (Or.inr (Or.inr ⟨?_, h2, ?_⟩))))
    · simp only [not_or] at h5
      simp [validChar, h1f, h3, h5.1, h5.2.1, h5.2.2]
    · have h5b : (isOperator [c] || c == '(' || c == ')') = false := by
        rw [isOperator_singleton]
        simp only [not_or] at h5
        simp [h5.1, h5.2.1, h5.2.2]
      simp only [scanStep, h1f, h2, h3, h4f, h5b, beq_iff_eq, if_false,
        Bool.false_eq_true]

theorem scanStep_tokens_prefix {c : Char} {st st1 : ScanState} (h : scanStep c st = .ok st1) :
    ∃ E, st1.1 = st.1 ++ E := by
  have hfl : ∃ E, flushNum st.1 st.2 = st.1 ++ E := by
    by_cases hn : st.2 = []
    · exact ⟨[], by simp [hn]⟩
    · exact ⟨[st.2], flushNum_of_ne_nil _ hn⟩
  obtain ⟨E, hE⟩ := hfl
  rcases scanStep_cases c st with ⟨_, h1⟩ | ⟨_, _, h1⟩ | ⟨_, _, _, h1⟩ | ⟨_, _, _, _, h1⟩ |
      ⟨_, _, _, _, _, h1⟩ | ⟨_, _, h1⟩ <;> rw [h1] at h <;> cases h
  · exact ⟨[], by simp⟩
  · exact ⟨E, hE⟩
  · exact ⟨E, hE⟩
  · exact ⟨E ++ [[c]], by simp [hE]⟩

theorem scanAll_tokens_prefix (s : Str) :
    ∀ (st : ScanState) (T : List Str), scanAll s st = .ok T → ∃ E, T = st.1 ++ E := by
  induction s with
  | nil =>
    intro st T h
    rw [scanAll_nil, scanEnd_ok_iff] at h
    by_cases hn : st.2 = []
    · exact ⟨[], by simp [h.2, hn]⟩
    · exact ⟨[st.2], by rw [h.2, flushNum_of_ne_nil _ hn]⟩
  | cons c rest ih =>
    intro st T h
    rw [scanAll_cons] at h
    cases hs : scanStep c st with
    | error e => rw [hs] at h; cases h
    | ok st1 =>
      rw [hs] at h
      obtain ⟨E1, hE1⟩ := ih st1 T h
      obtain ⟨E, hE⟩ := scanStep_tokens_prefix hs
      exact ⟨E ++ E1, by rw [hE1, hE, List.append_assoc]⟩

theorem scanStep_valid {c : Char} {st st1 : ScanState} (h : scanStep c st = .ok st1) :
    validChar c = true := by
  rcases scanStep_cases c st with ⟨h0, _⟩ | ⟨_, _, h1⟩ | ⟨_, _, h0, _⟩ | ⟨_, _, h0, _⟩ |
      ⟨_, _, _, _, h0, _⟩ | ⟨_, _, h1⟩
  · simp [validChar, h0]
  · rw [h1] at h; cases h
  · subst h0; decide
  · subst h0; decide
  · rcases h0 with h0 | h0 | h0
    · simp [validChar, h0]
    · subst h0; decide
    · subst h0; decide
  · rw [h1] at h; cases h

theorem scanAll_valid (s : Str) :
    ∀ (st : ScanState) (T : List Str), scanAll s st = .ok T → ∀ c ∈ s, validChar c = true := by
  induction s with
  | nil => intro st T _ c hc; simp at hc
  | cons d rest ih =>
    intro st T h c hc
    rw [scanAll_cons] at h
    cases hs : scanStep d st with
    | error e => rw [hs] at h; cases h
    | ok st1 =>
      rw [hs] at h
      rcases List.mem_cons.1 hc with h1 | h1
      · subst h1; exact scanStep_valid hs
      · exact ih st1 T h c h1

theorem scanRun_snoc (p : Str) (c : Char) (st : ScanState) :
    scanRun (p ++ [c]) st =
      match scanRun p st with
      | .error e => .error e
      | .ok st1 => scanStep c st1 := by
  rw [scanRun_append]
  cases scanRun p st with
  | error e => rfl
  | ok st1 =>
    show scanRun [c] st1 = scanStep c st1
    rw [scanRun]
    cases scanStep c st1 <;> rfl

theorem tokenize_of_scanRun {p : Str} {st : ScanState} (h : scanRun p ([], []) = .ok st)
    (hne : st.2 ≠ ['-']) : tokenize p = .ok (flushNum st.1 st.2) := by
  rw [tokenize_eq_scanAll]
  unfold scanAll
  rw [h]
  exact (scanEnd_ok_iff st _).2 ⟨hne, rfl⟩

theorem scanRun_of_tokenize {p : Str} {T : List Str} (h : tokenize p = .ok T) :
    ∃ st, scanRun p ([], []) = .ok st ∧ st.2 ≠ ['-'] ∧ T = flushNum st.1 st.2 := by
  rw [tokenize_eq_scanAll] at h
  unfold scanAll at h
  cases hr : scanRun p ([], []) with
  | error e => rw [hr] at h; cases h
  | ok st =>
    rw [hr] at h
    exact ⟨st, rfl, (scanEnd_ok_iff st T).1 h⟩

/-- Where the lexeme under accumulation comes from: it is a run of digits and dots, or it was
opened by a `-` in negative-literal position. -/
theorem scanRun_lexeme (p : Str) :
    ∀ st, scanRun p ([], []) = .ok st →
      (∀ c ∈ st.2, isNumChar c = true) ∨
      (∃ p1 ds, p = p1 ++ '-' :: ds ∧ (∀ c ∈ ds, isNumChar c = true) ∧ st.2 = '-' :: ds ∧
        tokenize p1 = .ok st.1 ∧ negPosition st.1 = true) := by
  induction p using List.reverseRecOn with
  | nil =>
    intro st h
    simp only [scanRun, Except.ok.injEq] at h
    subst h; exact Or.inl (by simp)
  | append_singleton p c ih =>
    intro st h
    rw [scanRun_snoc] at h
    cases hr : scanRun p ([], []) with
    | error e => rw [hr] at h; cases h
    | ok st0 =>
      rw [hr] at h
      simp only at h
      have ih0 := ih st0 hr
      rcases scanStep_cases c st0 with ⟨h0, h1⟩ | ⟨_, _, h1⟩ | ⟨_, _, _, h1⟩ |
          ⟨_, hne, hc, hneg, h1⟩ | ⟨_, _, _, _, _, h1⟩ | ⟨_, _, h1⟩ <;> rw [h1] at h <;> cases h
      · rcases ih0 with hA | ⟨p1, ds, hp, hds, hnum, htok, hneg⟩
        · left
          intro d hd
          rcases List.mem_append.1 hd with h6 | h6
          · exact hA d h6
          · simp at h6; subst h6; exact h0
        · right
          refine ⟨p1, ds ++ [c], by simp [hp], ?_, by simp [hnum], htok, hneg⟩
          intro d hd
          rcases List.mem_append.1 hd with h6 | h6
          · exact hds d h6
          · simp at h6; subst h6; exact h0
      · exact Or.inl (by simp)
      · right
        exact ⟨p, [], by simp [hc], by simp, rfl, tokenize_of_scanRun hr hne, hneg⟩
      · exact Or.inl (by simp)

/-! ## Tokenizer: the tokens emitted -/

theorem negPosition_snoc (tokens : List Str) (t : Str) :
    negPosition (tokens ++ [t]) = (isOperator t || t == ['(']) := by
  simp [negPosition]

theorem minusOK_nil : minusOK [] := by
  intro pre post h
  cases pre <;> simp at h

theorem minusOK_snoc {tokens : List Str} {x : Str} (h : minusOK tokens)
    (hx : x = ['-'] → negPosition tokens = false) : minusOK (tokens ++ [x]) := by
  intro pre post heq
  rcases List.eq_nil_or_concat post with h0 | ⟨post1, y, h0⟩
  · subst h0
    have h1 := List.append_inj' heq (by simp)
    have h2 : x = ['-'] := by simpa using h1.2
    rw [← h1.1]; exact hx h2
  · rw [List.concat_eq_append] at h0
    subst h0
    have heq1 : tokens ++ [x] = (pre ++ ['-'] :: post1) ++ [y] := by simpa using heq
    have h1 := List.append_inj' heq1 (by simp)
    exact h pre post1 h1.1

theorem isNumLexeme_of_lexemeOK {num : Str} (h : lexemeOK num) (h0 : num ≠ [])
    (h1 : num ≠ ['-']) : isNumLexeme num = true := by
  rcases h with hA | ⟨ds, hnum, hds⟩
  · cases num with
    | nil => exact absurd rfl h0
    | cons c cs =>
      have hc := hA c (by simp)
      have hcs : cs.all isNumChar = true :=
        List.all_eq_true.2 (fun d hd => hA d (by simp [hd]))
      simp [isNumLexeme, hc, hcs]
  · subst hnum
    have hne : ds ≠ [] := by intro h2; subst h2; exact h1 rfl
    have hcs : ds.all isNumChar = true := List.all_eq_true.2 hds
    cases ds with
    | nil => exact absurd rfl hne
    | cons d ds1 => simp [isNumLexeme, hcs]

theorem isNumLexeme_ne_minus {t : Str} (h : isNumLexeme t = true) : t ≠ ['-'] := by
  intro h0; subst h0; revert h; decide

theorem flushNum_inv {tokens : List Str} {num : Str} (hcl : ∀ t ∈ tokens, tokClass t = true)
    (hm : minusOK tokens) (hl : lexemeOK num) (hne : num ≠ ['-']) :
    (∀ t ∈ flushNum tokens num, tokClass t = true) ∧ minusOK (flushNum tokens num) := by
  by_cases h0 : num = []
  · subst h0; exact ⟨hcl, hm⟩
  · rw [flushNum_of_ne_nil _ h0]
    have hlex := isNumLexeme_of_lexemeOK hl h0 hne
    refine ⟨?_, minusOK_snoc hm (fun h => absurd h hne)⟩
    intro t ht
    rcases List.mem_append.1 ht with h1 | h1
    · exact hcl t h1
    · simp at h1; subst h1; simp [tokClass, hlex]

theorem scanStep_inv {c : Char} {st st1 : ScanState} (h : scanStep c st = .ok st1)
    (hcl : ∀ t ∈ st.1, tokClass t = true) (hm : minusOK st.1) (hl : lexemeOK st.2) :
    (∀ t ∈ st1.1, tokClass t = true) ∧ minusOK st1.1 ∧ lexemeOK st1.2 := by
  rcases scanStep_cases c st with ⟨h0, h1⟩ | ⟨_, _, h1⟩ | ⟨_, hne, _, h1⟩ |
      ⟨_, hne, hc, hneg, h1⟩ | ⟨_, hne, _, hmin, hop, h1⟩ | ⟨_, _, h1⟩ <;>
    rw [h1] at h <;> cases h
  · refine ⟨hcl, hm, ?_⟩
    rcases hl with hA | ⟨ds, hnum, hds⟩
    · left
      intro d hd
      rcases List.mem_append.1 hd with h6 | h6
      · exact hA d h6
      · simp at h6; subst h6; exact h0
    · right
      refine ⟨ds ++ [c], by simp [hnum], ?_⟩
      intro d hd
      rcases List.mem_append.1 hd with h6 | h6
      · exact hds d h6
      · simp at h6; subst h6; exact h0
  · obtain ⟨h2, h3⟩ := flushNum_inv hcl hm hl hne
    exact ⟨h2, h3, Or.inl (by simp)⟩
  · obtain ⟨h2, h3⟩ := flushNum_inv hcl hm hl hne
    exact ⟨h2, h3, Or.inr ⟨[], rfl, by simp⟩⟩
  · obtain ⟨h2, h3⟩ := flushNum_inv hcl hm hl hne
    refine ⟨?_, minusOK_snoc h3 (fun h => hmin (by simpa using h)), Or.inl (by simp)⟩
    intro t ht
    rcases List.mem_append.1 ht with h4 | h4
    · exact h2 t h4
    · simp at h4; subst h4
      rcases hop with h5 | h5 | h5
      · simp [tokClass, isOperator_singleton, h5]
      · subst h5; decide
      · subst h5; decide

theorem scanAll_inv (s : Str) :
    ∀ (st : ScanState) (T : List Str), scanAll s st = .ok T →
      (∀ t ∈ st.1, tokClass t = true) → minusOK st.1 → lexemeOK st.2 →
      (∀ t ∈ T, tokClass t = true) ∧ minusOK T := by
  induction s with
  | nil =>
    intro st T h hcl hm hl
    rw [scanAll_nil, scanEnd_ok_iff] at h
    rw [h.2]
    exact flushNum_inv hcl hm hl h.1
  | cons c rest ih =>
    intro st T h hcl hm hl
    rw [scanAll_cons] at h
    cases hs : scanStep c st with
    | error e => rw [hs] at h; cases h
    | ok st1 =>
      rw [hs] at h
      obtain ⟨h1, h2, h3⟩ := scanStep_inv hs hcl hm hl
      exact ih st1 T h h1 h2 h3

theorem tokenize_inv {s : Str} {T : List Str} (h : tokenize s = .ok T) :
    (∀ t ∈ T, tokClass t = true) ∧ minusOK T := by
  rw [tokenize_eq_scanAll] at h
  exact scanAll_inv s ([], []) T h (by simp) minusOK_nil (Or.inl (by simp))

theorem minus_preceded {T : List Str} (hcl : ∀ t ∈ T, tokClass t = true) (hm : minusOK T)
    (pre post : List Str) (h : T = pre ++ ['-'] :: post) :
    ∃ pre1 t, pre = pre1 ++ [t] ∧ (isNumLexeme t = true ∨ t = [')']) := by
  have hneg := hm pre post h
  rcases List.eq_nil_or_concat pre with h0 | ⟨pre1, t, h0⟩
  · subst h0; simp [negPosition] at hneg
  · rw [List.concat_eq_append] at h0
    subst h0
    rw [negPosition_snoc] at hneg
    simp only [Bool.or_eq_false_iff] at hneg
    have ht := hcl t (by rw [h]; simp)
    refine ⟨pre1, t, rfl, ?_⟩
    simp only [tokClass, Bool.or_eq_true, hneg.1, hneg.2, Bool.false_eq_true, or_false] at ht
    rcases ht with ht | ht
    · exact Or.inl ht
    · exact Or.inr (by simpa using ht)

/-- Claim C6. On an input that tokenizes, a `-` starts a negative Number token exactly when no
token was emitted before it or the last emitted token is an operator or `(` (then the token
is `-` followed by the digits and dots after it); every other `-` is emitted as the operator
token `-`. Hence an operator token `-` always follows a Number token or `)`. -/
theorem C6_minus_classification (p rest : Str) (T : List Str)
    (h : tokenize (p ++ '-' :: rest) = .ok T) :
    (∃ Tp T1, tokenize p = .ok Tp ∧
      ((negPosition Tp = true ∧ rest.takeWhile isNumChar ≠ [] ∧
          T = Tp ++ ('-' :: rest.takeWhile isNumChar) :: T1) ∨
       (negPosition Tp = false ∧ T = Tp ++ ['-'] :: T1))) ∧
    (∀ pre post, T = pre ++ ['-'] :: post →
      ∃ pre1 t, pre = pre1 ++ [t] ∧ (isNumLexeme t = true ∨ t = [')'])) := by
  obtain ⟨hcl, hm⟩ := tokenize_inv h
  refine ⟨?_, minus_preceded hcl hm⟩
  rw [tokenize_eq_scanAll, scanAll_append] at h
  cases hr : scanRun p ([], []) with
  | error e => rw [hr] at h; cases h
  | ok st0 =>
    rw [hr] at h
    simp only at h
    rw [scanAll_cons] at h
    rcases scanStep_cases '-' st0 with ⟨h0, _⟩ | ⟨_, _, h1⟩ | ⟨_, _, h0, _⟩ |
        ⟨_, hne, _, hneg, h1⟩ | ⟨_, hne, _, hmin, _, h1⟩ | ⟨_, _, h1⟩
    · exact absurd h0 (by decide)
    · rw [h1] at h; cases h
    · exact absurd h0 (by decide)
    · rw [h1] at h
      simp only at h
      refine ⟨flushNum st0.1 st0.2, ?_⟩
      have hsplit : rest = rest.takeWhile isNumChar ++ rest.dropWhile isNumChar :=
        (List.takeWhile_append_dropWhile isNumChar rest).symm
      by_cases hd : rest.takeWhile isNumChar = []
      · rw [scanAll_minus_stuck _ hd] at h; cases h
      · rw [hsplit, scanAll_append, scanRun_numChars _ (fun d hd1 => List.mem_takeWhile_imp hd1)]
          at h
        simp only [List.singleton_append] at h
        rw [scanAll_flush _ _ (dropWhile_head_not_numChar rest) (by
          intro h2; exact hd (by simpa using h2)),
          flushNum_of_ne_nil _ (List.cons_ne_nil _ _)] at h
        obtain ⟨E, hE⟩ := scanAll_tokens_prefix _ _ _ h
        exact ⟨E, tokenize_of_scanRun hr hne, Or.inl ⟨hneg, hd, by simpa using hE⟩⟩
    · rw [h1] at h
      simp only at h
      obtain ⟨E, hE⟩ := scanAll_tokens_prefix _ _ _ h
      exact ⟨flushNum st0.1 st0.2, E, tokenize_of_scanRun hr hne,
        Or.inr ⟨hmin rfl, by simpa using hE⟩⟩
    · rw [h1] at h; cases h

/-- Witness of C6: in `"(-5 + 3) + 9 - 2 + (-2 + -5)"` the `-` after `(` starts the
Number token `-5`; the input tokenizes as stated and evaluates to -2. -/
theorem C6_minus_classification_witness :
    tokenize negExample = .ok negExampleTokens ∧
    run refArith negExample = .ok (some (-2)) ∧
    negExample = str "(" ++ '-' :: str "5 + 3) + 9 - 2 + (-2 + -5)" ∧
    ((∃ Tp T1, tokenize (str "(") = .ok Tp ∧
      ((negPosition Tp = true ∧ (str "5 + 3) + 9 - 2 + (-2 + -5)").takeWhile isNumChar ≠ [] ∧
          negExampleTokens =
            Tp ++ ('-' :: (str "5 + 3) + 9 - 2 + (-2 + -5)").takeWhile isNumChar) :: T1) ∨
       (negPosition Tp = false ∧ negExampleTokens = Tp ++ ['-'] :: T1))) ∧
    (∀ pre post, negExampleTokens = pre ++ ['-'] :: post →
      ∃ pre1 t, pre = pre1 ++ [t] ∧ (isNumLexeme t = true ∨ t = [')']))) :=
  ⟨by decide, by decide!, by decide,
   C6_minus_classification (str "(") (str "5 + 3) + 9 - 2 + (-2 + -5)") negExampleTokens
     (by decide)⟩

/-! ## Tokenizer: when it fails -/

theorem scanAll_error (q : Str) :
    ∀ (st : ScanState) (e : String), scanAll q st = .error e →
      (∃ q1 c q2 st1, q = q1 ++ c :: q2 ∧ scanRun q1 st = .ok st1 ∧ scanStep c st1 = .error e) ∨
      (∃ st1, scanRun q st = .ok st1 ∧ scanEnd st1 = .error e) := by
  induction q with
  | nil =>
    intro st e h
    exact Or.inr ⟨st, rfl, h⟩
  | cons c rest ih =>
    intro st e h
    rw [scanAll_cons] at h
    cases hs : scanStep c st with
    | error e1 =>
      rw [hs] at h
      cases h
      exact Or.inl ⟨[], c, rest, st, rfl, rfl, hs⟩
    | ok st1 =>
      rw [hs] at h
      rcases ih st1 e h with ⟨q1, d, q2, st2, hq, hrun, hstep⟩ | ⟨st2, hrun, hend⟩
      · exact Or.inl ⟨c :: q1, d, q2, st2, by simp [hq], by simp [scanRun, hs, hrun], hstep⟩
      · exact Or.inr ⟨st2, by simp [scanRun, hs, hrun], hend⟩

theorem minus_open_of_scanRun {p : Str} {st : ScanState} (h : scanRun p ([], []) = .ok st)
    (h2 : st.2 = ['-']) :
    ∃ p1, p = p1 ++ ['-'] ∧ tokenize p1 = .ok st.1 ∧ negPosition st.1 = true := by
  rcases scanRun_lexeme p st h with hA | ⟨p1, ds, hp, _, hnum, htok, hneg⟩
  · exact absurd h2 (ne_minus_of_numChars hA)
  · rw [h2] at hnum
    have hds : ds = [] := by simpa using hnum.symm
    subst hds
    exact ⟨p1, hp, htok, hneg⟩

theorem tokenize_minus_stuck {p rest : Str} {Tp : List Str} (hp : tokenize p = .ok Tp)
    (hneg : negPosition Tp = true) (hrest : rest.takeWhile isNumChar = []) :
    tokenize (p ++ '-' :: rest) = .error msgNegSign := by
  obtain ⟨st, hrun, hne, hT⟩ := scanRun_of_tokenize hp
  rw [tokenize_eq_scanAll, scanAll_append, hrun]
  simp only
  rw [scanAll_cons]
  rcases scanStep_cases '-' st with ⟨h0, _⟩ | ⟨_, h0, _⟩ | ⟨_, _, h0, _⟩ |
      ⟨_, _, _, _, h1⟩ | ⟨_, _, _, hmin, _, _⟩ | ⟨h0, _⟩
  · exact absurd h0 (by decide)
  · exact absurd h0 hne
  · exact absurd h0 (by decide)
  · rw [h1]; exact scanAll_minus_stuck _ hrest
  · rw [← hT, hneg] at hmin; exact absurd (hmin rfl) (by decide)
  · exact absurd h0 (by decide)

/-- Claim C7. `tokenize` fails exactly when the input contains a character that is not a digit,
`.`, a space, an operator or a parenthesis, or contains a `-` in negative-literal position
(no token before it, or the last token an operator or `(`) that no digit or `.` follows; on
every other input it returns a token sequence. -/
theorem C7_tokenize_failure (s : Str) :
    ((∃ e, tokenize s = .error e) ↔
      ((∃ c ∈ s, validChar c = false) ∨
       (∃ p rest Tp, s = p ++ '-' :: rest ∧ tokenize p = .ok Tp ∧ negPosition Tp = true ∧
          rest.takeWhile isNumChar = []))) ∧
    ((∃ T, tokenize s = .ok T) ↔
      ¬((∃ c ∈ s, validChar c = false) ∨
       (∃ p rest Tp, s = p ++ '-' :: rest ∧ tokenize p = .ok Tp ∧ negPosition Tp = true ∧
          rest.takeWhile isNumChar = []))) := by
  have main : (∃ e, tokenize s = .error e) ↔
      ((∃ c ∈ s, validChar c = false) ∨
       (∃ p rest Tp, s = p ++ '-' :: rest ∧ tokenize p = .ok Tp ∧ negPosition Tp = true ∧
          rest.takeWhile isNumChar = [])) := by
    constructor
    · rintro ⟨e, he⟩
      rw [tokenize_eq_scanAll] at he
      rcases scanAll_error s _ e he with ⟨q1, c, q2, st1, hq, hrun, hstep⟩ | ⟨st1, hrun, hend⟩
      · rcases scanStep_cases c st1 with ⟨_, h1⟩ | ⟨hc, h2, _⟩ | ⟨_, _, _, h1⟩ |
            ⟨_, _, _, _, h1⟩ | ⟨_, _, _, _, _, h1⟩ | ⟨hv, _, _⟩
        · rw [h1] at hstep; cases hstep
        · obtain ⟨p1, hp, htok, hneg⟩ := minus_open_of_scanRun hrun h2
          refine Or.inr ⟨p1, c :: q2, st1.1, by rw [hq, hp]; simp, htok, hneg, ?_⟩
          simp [List.takeWhile, hc]
        · rw [h1] at hstep; cases hstep
        · rw [h1] at hstep; cases hstep
        · rw [h1] at hstep; cases hstep
        · exact Or.inl ⟨c, by rw [hq]; simp, hv⟩
      · have h2 : st1.2 = ['-'] := by
          by_contra h3
          rw [(scanEnd_ok_iff st1 _).2 ⟨h3, rfl⟩] at hend
          cases hend
        obtain ⟨p1, hp, htok, hneg⟩ := minus_open_of_scanRun hrun h2
        exact Or.inr ⟨p1, [], st1.1, hp, htok, hneg, rfl⟩
    · rintro (⟨c, hc, hv⟩ | ⟨p, rest, Tp, hs, hp, hneg, hrest⟩)
      · cases ht : tokenize s with
        | error e => exact ⟨e, rfl⟩
        | ok T =>
          rw [tokenize_eq_scanAll] at ht
          have := scanAll_valid s _ T ht c hc
          rw [hv] at this; cases this
      · exact ⟨msgNegSign, by rw [hs]; exact tokenize_minus_stuck hp hneg hrest⟩
  refine ⟨main, ?_⟩
  rw [← main]
  cases ht : tokenize s with
  | error e => simp
  | ok T => simp

/-! ## Tokenizer: spaces and other whitespace -/

theorem scanStep_space_idle (tokens : List Str) :
    scanStep ' ' (tokens, []) = .ok (tokens, []) := by
  rcases scanStep_cases ' ' (tokens, []) with ⟨h0, _⟩ | ⟨_, h0, _⟩ | ⟨_, _, _, h1⟩ |
      ⟨_, _, h0, _⟩ | ⟨_, _, h0, _⟩ | ⟨h0, _⟩
  · exact absurd h0 (by decide)
  · exact absurd h0 (by simp)
  · exact h1
  · exact absurd h0 (by decide)
  · exact absurd rfl h0
  · exact absurd h0 (by decide)

theorem scanAll_space_idle (tokens : List Str) (q : Str) :
    scanAll (' ' :: q) (tokens, []) = scanAll q (tokens, []) := by
  rw [scanAll_cons, scanStep_space_idle]

theorem scanAll_space_before (st : ScanState) {q : Str} (hq : q.takeWhile isNumChar = []) :
    scanAll (' ' :: q) st = scanAll q st := by
  obtain ⟨tokens, num⟩ := st
  rw [scanAll_cons]
  rcases scanStep_cases ' ' (tokens, num) with ⟨h0, _⟩ | ⟨_, h0, h1⟩ | ⟨_, hne, _, h1⟩ |
      ⟨_, _, h0, _⟩ | ⟨_, _, h0, _⟩ | ⟨h0, _⟩
  · exact absurd h0 (by decide)
  · rw [h1]
    have h2 : num = ['-'] := h0
    subst h2
    exact (scanAll_minus_stuck tokens hq).symm
  · rw [h1]
    exact (scanAll_flush tokens num hq hne).symm
  · exact absurd h0 (by decide)
  · exact absurd rfl h0
  · exact absurd h0 (by decide)

theorem scanAll_space_after (st : ScanState) (c : Char) (q : Str)
    (hc : c ∈ [' ', '+', '*', '/', '^', '(', ')']) :
    scanAll (c :: ' ' :: q) st = scanAll (c :: q) st := by
  rw [scanAll_cons, scanAll_cons]
  have hnn : isNumChar c = false ∧ c ≠ '-' := by
    simp only [List.mem_cons, List.mem_singleton, List.not_mem_nil, or_false] at hc
    rcases hc with h | h | h | h | h | h | h <;> subst h <;> decide
  rcases scanStep_cases c st with ⟨h0, _⟩ | ⟨_, _, h1⟩ | ⟨_, _, _, h1⟩ |
      ⟨_, _, h0, _⟩ | ⟨_, _, _, _, _, h1⟩ | ⟨_, _, h1⟩
  · rw [hnn.1] at h0; cases h0
  · rw [h1]
  · rw [h1]; exact scanAll_space_idle _ q
  · exact absurd h0 hnn.2
  · rw [h1]; exact scanAll_space_idle _ q
  · rw [h1]

theorem tokenize_congr_after (p : Str) {q1 q2 : Str}
    (h : ∀ st, scanRun p ([], []) = .ok st → scanAll q1 st = scanAll q2 st) :
    tokenize (p ++ q1) = tokenize (p ++ q2) := by
  rw [tokenize_eq_scanAll, tokenize_eq_scanAll, scanAll_append, scanAll_append]
  cases hr : scanRun p ([], []) with
  | error e => rfl
  | ok st => exact h st hr

/-- Claim C8, counterexample. A tab between tokens is not skipped: `"3\t+\t5"` is rejected
with "Invalid character in expression", whereas `"3 + 5"` tokenizes to `[3, +, 5]`. -/
theorem C8_tab_not_skipped :
    tokenize (str "3\t+\t5") = .error msgInvalidChar ∧
    tokenize (str "3 + 5") = .ok [str "3", str "+", str "5"] ∧
    tokenize (str "3\t+\t5") ≠ tokenize (str "3 + 5") ∧
    tokenize (str "3\n+\n5") = .error msgInvalidChar := by
  decide

/-- Claim C8, amended. Only the space character is skipped by `tokenize`. A space before a
character that is not a digit or `.` (or at the end of the input), a space after a space, an
operator other than `-` or a parenthesis, a space at the start of the input, and a space after
an operator token `-` never changes the result of `tokenize`. Tab and newline are not
skipped: every input containing one is rejected. -/
theorem C8_space_skipped (p q : Str) (c : Char) (Tp : List Str) :
    (q.takeWhile isNumChar = [] → tokenize (p ++ ' ' :: q) = tokenize (p ++ q)) ∧
    (c ∈ [' ', '+', '*', '/', '^', '(', ')'] →
      tokenize (p ++ c :: ' ' :: q) = tokenize (p ++ c :: q)) ∧
    tokenize (' ' :: q) = tokenize q ∧
    (tokenize p = .ok Tp → negPosition Tp = false →
      tokenize (p ++ '-' :: ' ' :: q) = tokenize (p ++ '-' :: q)) ∧
    (('\t' ∈ p ∨ '\n' ∈ p) → ∃ e, tokenize p = .error e) := by
  refine ⟨?_, ?_, ?_, ?_, ?_⟩
  · intro hq
    exact tokenize_congr_after p (fun st _ => scanAll_space_before st hq)
  · intro hc
    exact tokenize_congr_after p (fun st _ => scanAll_space_after st c q hc)
  · rw [tokenize_eq_scanAll, tokenize_eq_scanAll]
    exact scanAll_space_idle [] q
  · intro hp hneg
    obtain ⟨st, hrun, hne, hT⟩ := scanRun_of_tokenize hp
    refine tokenize_congr_after p (fun st1 h1 => ?_)
    rw [hrun] at h1
    cases h1
    rw [scanAll_cons, scanAll_cons]
    rcases scanStep_cases '-' st with ⟨h0, _⟩ | ⟨_, h0, _⟩ | ⟨_, _, h0, _⟩ |
        ⟨_, _, _, h0, _⟩ | ⟨_, _, _, _, _, h1⟩ | ⟨h0, _⟩
    · exact absurd h0 (by decide)
    · exact absurd h0 hne
    · exact absurd h0 (by decide)
    · rw [← hT, hneg] at h0; cases h0
    · rw [h1]; exact scanAll_space_idle _ q
    · exact absurd h0 (by decide)
  · intro hmem
    cases ht : tokenize p with
    | error e => exact ⟨e, rfl⟩
    | ok T =>
      rw [tokenize_eq_scanAll] at ht
      have hv := scanAll_valid p _ T ht
      rcases hmem with h | h
      · exact absurd (hv _ h) (by decide)
      · exact absurd (hv _ h) (by decide)

/-- Witness of C8 (amended): the spaces of `"3 + 5"` and of `"7 - 2"` can be dropped one
by one, and `"3\t"` is rejected. -/
theorem C8_space_skipped_witness :
    tokenize (str "3" ++ ' ' :: str "+ 5") = tokenize (str "3" ++ str "+ 5") ∧
    tokenize (str "3 " ++ '+' :: ' ' :: str "5") = tokenize (str "3 " ++ '+' :: str "5") ∧
    tokenize (' ' :: str "3") = tokenize (str "3") ∧
    tokenize (str "7 " ++ '-' :: ' ' :: str "2") = tokenize (str "7 " ++ '-' :: str "2") ∧
    (∃ e, tokenize (str "3\t") = .error e) :=
  ⟨(C8_space_skipped (str "3") (str "+ 5") '+' []).1 (by decide),
   (C8_space_skipped (str "3 ") (str "5") '+' []).2.1 (by decide),
   (C8_space_skipped [] (str "3") '+' []).2.2.1,
   (C8_space_skipped (str "7 ") (str "2") '+' [str "7"]).2.2.2.1 (by decide) (by decide),
   (C8_space_skipped (str "3\t") [] '+' []).2.2.2.2 (Or.inl (by decide))⟩

/-! ## Division by zero -/

/-- Claim C9. For a tree `/(l, r)` whose operands evaluate to `x` and `y`: when `y` is zero `eval`
fails with "Division by zero", and when `y` is not zero it returns the quotient `x / y`. -/
theorem C9_division_by_zero {α : Type} (A : Arith α) (l r : Node) (x y : α)
    (hl : eval A l = .ok x) (hr : eval A r = .ok y) :
    (A.isZero y = true → eval A (.node ['/'] l r) = .error "Division by zero") ∧
    (A.isZero y = false → eval A (.node ['/'] l r) = .ok (A.div x y)) := by
  constructor
  · intro hz
    simp [eval, hl, hr, hz, msgDivZero]
  · intro hz
    simp [eval, hl, hr, hz]

/-- Witness of C9: the pipeline on `"5 / 0"` fails with "Division by zero", and
`"6 / 3"` gives 2. -/
theorem C9_division_by_zero_witness :
    run refArith (str "5 / 0") = .error "Division by zero" ∧
    eval refArith (.node ['/'] (.leaf (str "5")) (.leaf (str "0"))) = .error "Division by zero" ∧
    eval refArith (.node ['/'] (.leaf (str "6")) (.leaf (str "3")))
      = .ok (refArith.div (some 6) (some 3)) ∧
    refArith.div (some 6) (some 3) = some 2 :=
  ⟨by decide!,
   (C9_division_by_zero refArith (.leaf (str "5")) (.leaf (str "0")) (some 5) (some 0)
      (by decide!) (by decide!)).1 (by decide!),
   (C9_division_by_zero refArith (.leaf (str "6")) (.leaf (str "3")) (some 6) (some 3)
      (by decide!) (by decide!)).2 (by decide!),
   by decide!⟩

/-! ## Balanced parentheses -/

theorem convStep_balance {prev : Option Str} {t : Str} {st st1 : ConvState}
    (h : convStep prev t st = .ok st1) :
    st1.parenBalance = st.parenBalance + (if t = ['('] then 1 else 0)
        - (if t = [')'] then 1 else 0) ∧
    (0 ≤ st.parenBalance → 0 ≤ st1.parenBalance) := by
  by_cases hn : isNumberToken t = true
  · have h1 : t ≠ ['('] := by intro h0; subst h0; revert hn; decide
    have h2 : t ≠ [')'] := by intro h0; subst h0; revert hn; decide
    rw [convStep_number prev t st hn] at h
    cases h
    simp [h1, h2]
  by_cases ho : isOperator t = true
  · have h1 : t ≠ ['('] := by intro h0; subst h0; revert ho; decide
    have h2 : t ≠ [')'] := by intro h0; subst h0; revert ho; decide
    simp only [convStep, hn, ho, if_true, if_false, Bool.false_eq_true] at h
    split at h
    · cases h
    · cases h
      simp [h1, h2]
  by_cases hl : t = ['(']
  · subst hl
    rw [convStep_lparen] at h
    cases h
    simp only [if_true]
    constructor
    · simp
    · intro h0; show (0 : Int) ≤ st.parenBalance + 1; omega
  by_cases hr : t = [')']
  · subst hr
    rw [convStep_rparen] at h
    split at h
    · cases h
    · rename_i hlt
      split at h
      · cases h
      · cases h
        simp only [if_true]
        constructor
        · simp
        · intro _; show (0 : Int) ≤ st.parenBalance - 1; omega
  · simp only [convStep, hn, ho, hl, hr, beq_iff_eq, if_false, Bool.false_eq_true] at h
    cases h
    simp [hl, hr]

theorem convLoop_balance (tokens : List Str) :
    ∀ (prev : Option Str) (st st1 : ConvState), convLoop prev tokens st = .ok st1 →
      0 ≤ st.parenBalance →
      (∀ pre, pre <+: tokens → (pre.count [')'] : Int) ≤ st.parenBalance + pre.count ['(']) ∧
      st1.parenBalance = st.parenBalance + tokens.count ['('] - tokens.count [')'] := by
  induction tokens with
  | nil =>
    intro prev st st1 h hpb
    simp only [convLoop, Except.ok.injEq] at h
    subst h
    refine ⟨?_, by simp⟩
    intro pre hpre
    have : pre = [] := List.prefix_nil.1 hpre
    subst this; simpa using hpb
  | cons t rest ih =>
    intro prev st st1 h hpb
    rw [convLoop] at h
    cases hs : convStep prev t st with
    | error e => rw [hs] at h; cases h
    | ok st2 =>
      rw [hs] at h
      simp only at h
      obtain ⟨hb, hnn⟩ := convStep_balance hs
      obtain ⟨ih1, ih2⟩ := ih (some t) st2 st1 h (hnn hpb)
      have hcl : ((t :: rest).count ['('] : Int)
          = rest.count ['('] + (if t = ['('] then 1 else 0) := by
        rw [List.count_cons]; split_ifs <;> simp_all
      have hcr : ((t :: rest).count [')'] : Int)
          = rest.count [')'] + (if t = [')'] then 1 else 0) := by
        rw [List.count_cons]; split_ifs <;> simp_all
      constructor
      · intro pre hpre
        cases pre with
        | nil => simpa using hpb
        | cons u pre1 =>
          have hu : u = t ∧ pre1 <+: rest := by
            simpa [List.cons_prefix_cons] using hpre
          obtain ⟨hu1, hu2⟩ := hu
          subst hu1
          have h3 := ih1 pre1 hu2
          have hpl : ((u :: pre1).count ['('] : Int)
              = pre1.count ['('] + (if u = ['('] then 1 else 0) := by
            rw [List.count_cons]; split_ifs <;> simp_all
          have hpr : ((u :: pre1).count [')'] : Int)
              = pre1.count [')'] + (if u = [')'] then 1 else 0) := by
            rw [List.count_cons]; split_ifs <;> simp_all
          rw [hpl, hpr]; rw [hb] at h3; omega
      · rw [ih2, hb, hcl, hcr]; omega

/-- Claim C10. `datacuration` rejects unbalanced parentheses: when it succeeds, every prefix of
the token sequence has at least as many `(` as `)` tokens and the whole sequence has equally
many of each; so every sequence violating this fails. -/
theorem C10_balanced_parentheses (tokens out : List Str)
    (h : datacuration tokens = .ok out) :
    (∀ pre, pre <+: tokens → pre.count [')'] ≤ pre.count ['(']) ∧
    tokens.count ['('] = tokens.count [')'] := by
  unfold datacuration at h
  cases hc : convLoop none tokens { output := [], ops := [], parenBalance := 0 } with
  | error e => rw [hc] at h; cases h
  | ok st =>
    rw [hc] at h
    simp only at h
    obtain ⟨h1, h2⟩ := convLoop_balance tokens none _ st hc (le_refl _)
    have hz : st.parenBalance = 0 := by
      by_contra hne
      have : (st.parenBalance != 0) = true := by simpa using hne
      rw [if_pos this] at h
      cases h
    constructor
    · intro pre hpre
      have := h1 pre hpre
      simp only [zero_add] at this
      exact_mod_cast this
    · rw [hz] at h2
      simp only [zero_add] at h2
      omega

/-- Witness of C10: the tokens of `"(3 + 4)"` are accepted and are balanced; the
tokens of `"(3 + 4"` and of `"3 + 4)"` are rejected with "Mismatched parentheses". -/
theorem C10_balanced_parentheses_witness :
    ((∀ pre, pre <+: [str "(", str "3", str "+", str "4", str ")"] →
        pre.count [')'] ≤ pre.count ['(']) ∧
      [str "(", str "3", str "+", str "4", str ")"].count ['(']
        = [str "(", str "3", str "+", str "4", str ")"].count [')']) ∧
    tokenize (str "(3 + 4") = .ok [str "(", str "3", str "+", str "4"] ∧
    datacuration [str "(", str "3", str "+", str "4"] = .error "Mismatched parentheses" ∧
    tokenize (str "3 + 4)") = .ok [str "3", str "+", str "4", str ")"] ∧
    datacuration [str "3", str "+", str "4", str ")"] = .error "Mismatched parentheses" :=
  ⟨C10_balanced_parentheses [str "(", str "3", str "+", str "4", str ")"]
      [str "3", str "4", str "+"] (by decide),
   by decide, by decide, by decide, by decide⟩

/-! ## Converter: the branches of one step and the loop over a prefix -/

theorem popHigher_spec (tok : Str) (ops : List Str) :
    ∀ out : List Str, ∃ popped rest, ops = popped ++ rest ∧
      popHigher tok ops out = (out ++ popped, rest) ∧ ∀ x ∈ popped, isOperator x = true := by
  induction ops with
  | nil => intro out; exact ⟨[], [], rfl, by simp [popHigher], by simp⟩
  | cons top ops ih =>
    intro out
    by_cases hc : (isOperator top &&
        (decide (precedence tok ≤ precedence top) && tok != ['^'])) = true
    · obtain ⟨popped, rest, h1, h2, h3⟩ := ih (out ++ [top])
      refine ⟨top :: popped, rest, by simp [h1], ?_, ?_⟩
      · rw [popHigher, if_pos hc, h2]; simp
      · intro x hx
        rcases List.mem_cons.1 hx with h | h
        · subst h
          simp only [Bool.and_eq_true] at hc
          exact hc.1
        · exact h3 x h
    · refine ⟨[], top :: ops, rfl, ?_, by simp⟩
      rw [popHigher, if_neg hc]; simp

theorem popToParen_spec (ops : List Str) :
    ∀ out : List Str, ∃ popped rest, ops = popped ++ rest ∧
      popToParen ops out = (out ++ popped, rest) ∧ (∀ x ∈ popped, x ≠ ['(']) ∧
      (rest = [] ∨ ∃ r, rest = ['('] :: r) := by
  induction ops with
  | nil => intro out; exact ⟨[], [], rfl, by simp [popToParen], by simp, Or.inl rfl⟩
  | cons top ops ih =>
    intro out
    by_cases hc : top = ['(']
    · subst hc
      refine ⟨[], ['('] :: ops, rfl, ?_, by simp, Or.inr ⟨ops, rfl⟩⟩
      simp [popToParen]
    · obtain ⟨popped, rest, h1, h2, h3, h4⟩ := ih (out ++ [top])
      refine ⟨top :: popped, rest, by simp [h1], ?_, ?_, h4⟩
      · have hb : (top != ['(']) = true := by simpa using hc
        rw [popToParen, if_pos hb, h2]; simp
      · intro x hx
        rcases List.mem_cons.1 hx with h | h
        · subst h; exact hc
        · exact h3 x h

theorem drainOps_spec (ops : List Str) :
    ∀ out : List Str,
      ((∀ x ∈ ops, x ≠ ['('] ∧ x ≠ [')']) → drainOps ops out = .ok (out ++ ops)) ∧
      (¬(∀ x ∈ ops, x ≠ ['('] ∧ x ≠ [')']) → drainOps ops out = .error msgParens) := by
  induction ops with
  | nil => intro out; exact ⟨fun _ => by simp [drainOps], fun h => absurd (by simp) h⟩
  | cons top ops ih =>
    intro out
    by_cases hc : top = ['('] ∨ top = [')']
    · have hb : (top == ['('] || top == [')']) = true := by simpa using hc
      constructor
      · intro h
        have := h top (by simp)
        rcases hc with hc | hc
        · exact absurd hc this.1
        · exact absurd hc this.2
      · intro _
        rw [drainOps, if_pos hb]
    · have hb : ¬((top == ['('] || top == [')']) = true) := by simpa using hc
      simp only [not_or] at hc
      constructor
      · intro h
        rw [drainOps, if_neg hb, (ih (out ++ [top])).1 (fun x hx => h x (by simp [hx]))]
        simp
      · intro h
        rw [drainOps, if_neg hb]
        apply (ih (out ++ [top])).2
        intro h1
        apply h
        intro x hx
        rcases List.mem_cons.1 hx with h2 | h2
        · subst h2; exact hc
        · exact h1 x h2

/-- The seven branches of one iteration of the loop of `datacuration`. -/
theorem convStep_cases (prev : Option Str) (t : Str) (st : ConvState) :
    (isNumberToken t = true ∧ convStep prev t st = .ok { st with output := st.output ++ [t] }) ∨
    (isNumberToken t = false ∧ isOperator t = true ∧ opMisplaced prev = true ∧
      convStep prev t st = .error msgOpPosition) ∨
    (isNumberToken t = false ∧ isOperator t = true ∧ opMisplaced prev = false ∧
      ∃ popped rest, st.ops = popped ++ rest ∧ (∀ x ∈ popped, isOperator x = true) ∧
        convStep prev t st =
          .ok { st with output := st.output ++ popped, ops := t :: rest }) ∨
    (t = ['('] ∧ convStep prev t st =
      .ok { st with ops := ['('] :: st.ops, parenBalance := st.parenBalance + 1 }) ∨
    (t = [')'] ∧ st.parenBalance - 1 < 0 ∧ convStep prev t st = .error msgParens) ∨
    (t = [')'] ∧ ¬(st.parenBalance - 1 < 0) ∧
      ∃ popped rest, st.ops = popped ++ rest ∧ (∀ x ∈ popped, x ≠ ['(']) ∧
        ((rest = [] ∧ convStep prev t st = .error msgParens) ∨
         (∃ r, rest = ['('] :: r ∧ convStep prev t st =
            .ok { output := st.output ++ popped, ops := r,
                  parenBalance := st.parenBalance - 1 }))) ∨
    (isNumberToken t = false ∧ isOperator t = false ∧ t ≠ ['('] ∧ t ≠ [')'] ∧
      convStep prev t st = .ok st) := by
  by_cases hn : isNumberToken t = true
  · exact Or.inl ⟨hn, convStep_number prev t st hn⟩
  have hnf : isNumberToken t = false := by simpa using hn
  by_cases ho : isOperator t = true
  · by_cases hm : opMisplaced prev = true
    · refine Or.inr (Or.inl ⟨hnf, ho, hm, ?_⟩)
      unfold opMisplaced at hm
      simp only [convStep, hnf, ho, if_true, if_false, Bool.false_eq_true, hm]
    · have hmf : opMisplaced prev = false := by simpa using hm
      obtain ⟨popped, rest, h1, h2, h3⟩ := popHigher_spec t st.ops st.output
      refine Or.inr (Or.inr (Or.inl ⟨hnf, ho, hmf, popped, rest, h1, h3, ?_⟩))
      unfold opMisplaced at hmf
      simp only [convStep, hnf, ho, if_true, if_false, Bool.false_eq_true, hmf, h2]
  have hof : isOperator t = false := by simpa using ho
  by_cases hl : t = ['(']
  · exact Or.inr (Or.inr (Or.inr (Or.inl ⟨hl, by subst hl; exact convStep_lparen prev st⟩)))
  by_cases hr : t = [')']
  · subst hr
    by_cases hpb : st.parenBalance - 1 < 0
    · refine Or.inr (Or.inr (Or.inr (Or.inr (Or.inl ⟨rfl, hpb, ?_⟩))))
      rw [convStep_rparen, if_pos hpb]
    · obtain ⟨popped, rest, h1, h2, h3, h4⟩ := popToParen_spec st.ops st.output
      refine Or.inr (Or.inr (Or.inr (Or.inr (Or.inr (Or.inl
        ⟨rfl, hpb, popped, rest, h1, h3, ?_⟩)))))
      rcases h4 with h4 | ⟨r, h4⟩
      · left
        refine ⟨h4, ?_⟩
        rw [convStep_rparen, if_neg hpb, h2, h4]
      · right
        refine ⟨r, h4, ?_⟩
        rw [convStep_rparen, if_neg hpb, h2, h4]
  · refine Or.inr (Or.inr (Or.inr (Or.inr (Or.inr (Or.inr ⟨hnf, hof, hl, hr, ?_⟩)))))
    simp only [convStep, hnf, hof, hl, hr, beq_iff_eq, if_false, Bool.false_eq_true]

theorem prevAfter_cons (prev : Option Str) (t : Str) (pre : List Str) :
    prevAfter prev (t :: pre) = prevAfter (some t) pre := by
  cases pre with
  | nil => rfl
  | cons u pre1 =>
    cases h : (u :: pre1).getLast? with
    | none => simp [List.getLast?_eq_none_iff] at h
    | some x => simp [prevAfter, List.getLast?_cons_cons, h]

theorem prevAfter_snoc (prev : Option Str) (pre : List Str) (t : Str) :
    prevAfter prev (pre ++ [t]) = some t := by
  simp [prevAfter]

theorem convLoop_append (pre rest : List Str) :
    ∀ (prev : Option Str) (st : ConvState),
      convLoop prev (pre ++ rest) st =
        match convLoop prev pre st with
        | .error e => .error e
        | .ok st1 => convLoop (prevAfter prev pre) rest st1 := by
  induction pre with
  | nil => intro prev st; rfl
  | cons t pre ih =>
    intro prev st
    show convLoop prev (t :: (pre ++ rest)) st = _
    rw [convLoop, convLoop]
    cases convStep prev t st with
    | error e => rfl
    | ok st1 =>
      simp only
      rw [ih (some t) st1, prevAfter_cons]

theorem datacuration_eq (tokens : List Str) :
    datacuration tokens =
      match convLoop none tokens initConv with
      | .error e => .error e
      | .ok st => if st.parenBalance != 0 then .error msgParens else drainOps st.ops st.output :=
  rfl

/-! ## Misplaced operators -/

/-- Claim C11. `datacuration` rejects misplaced operators: a token sequence with an operator
token at index 0, or right after another operator token or after `(`, makes it fail; and when
the tokens before that operator are read without a failure, the failure is "Operator in
invalid position". -/
theorem C11_misplaced_operator (pre : List Str) (op : Str) (post : List Str)
    (hop : isOperator op = true)
    (hpos : pre = [] ∨ ∃ pre1 p, pre = pre1 ++ [p] ∧ (isOperator p = true ∨ p = ['('])) :
    (∃ e, datacuration (pre ++ op :: post) = .error e) ∧
    (∀ st, convLoop none pre initConv = .ok st →
      datacuration (pre ++ op :: post) = .error "Operator in invalid position") := by
  have hmis : opMisplaced (prevAfter none pre) = true := by
    rcases hpos with h | ⟨pre1, p, h, hp⟩
    · subst h; rfl
    · subst h
      rw [prevAfter_snoc]
      rcases hp with hp | hp
      · simp [opMisplaced, hp]
      · subst hp; rfl
  have hstep : ∀ st, convStep (prevAfter none pre) op st = .error msgOpPosition := by
    intro st
    rcases convStep_cases (prevAfter none pre) op st with ⟨h0, _⟩ | ⟨_, _, _, h1⟩ |
        ⟨_, _, h0, _⟩ | ⟨h0, _⟩ | ⟨h0, _⟩ | ⟨h0, _⟩ | ⟨_, h0, _⟩
    · rw [isNumberToken_of_isOperator hop] at h0; cases h0
    · exact h1
    · rw [hmis] at h0; cases h0
    · rw [h0] at hop; exact absurd hop (by decide)
    · rw [h0] at hop; exact absurd hop (by decide)
    · rw [h0] at hop; exact absurd hop (by decide)
    · rw [hop] at h0; cases h0
  have key : ∀ st, convLoop none pre initConv = .ok st →
      datacuration (pre ++ op :: post) = .error msgOpPosition := by
    intro st hst
    rw [datacuration_eq, convLoop_append, hst]
    simp only
    rw [convLoop, hstep st]
  refine ⟨?_, key⟩
  cases hst : convLoop none pre initConv with
  | error e =>
    refine ⟨e, ?_⟩
    rw [datacuration_eq, convLoop_append, hst]
  | ok st => exact ⟨_, key st hst⟩

/-- Witness of C11: the token sequences of `"+ 3"` and `"3 + + 4"` fail with "Operator in
invalid position". -/
theorem C11_misplaced_operator_witness :
    tokenize (str "+ 3") = .ok ([] ++ str "+" :: [str "3"]) ∧
    tokenize (str "3 + + 4") = .ok ([str "3", str "+"] ++ str "+" :: [str "4"]) ∧
    datacuration ([] ++ str "+" :: [str "3"]) = .error "Operator in invalid position" ∧
    datacuration ([str "3", str "+"] ++ str "+" :: [str "4"])
      = .error "Operator in invalid position" ∧
    (∃ e, datacuration ([str "3", str "("] ++ str "*" :: [str "4", str ")"]) = .error e) :=
  ⟨by decide, by decide,
   (C11_misplaced_operator [] (str "+") [str "3"] (by decide) (Or.inl rfl)).2 initConv
     (by decide),
   (C11_misplaced_operator [str "3", str "+"] (str "+") [str "4"] (by decide)
     (Or.inr ⟨[str "3"], str "+", by decide, Or.inl (by decide)⟩)).2
     { output := [str "3"], ops := [str "+"], parenBalance := 0 } (by decide),
   (C11_misplaced_operator [str "3", str "("] (str "*") [str "4", str ")"] (by decide)
     (Or.inr ⟨[str "3"], str "(", by decide, Or.inr (by decide)⟩)).1⟩

/-! ## Tree builder: valid reverse-Polish sequences -/

theorem buildLoop_rpnDepth (pfix : List Str) :
    ∀ st : List Node,
      (∀ st1, buildLoop pfix st = .ok st1 → rpnDepth st.length pfix = some st1.length) ∧
      (∀ e, buildLoop pfix st = .error e → e = msgMalformed ∧ rpnDepth st.length pfix = none) := by
  induction pfix with
  | nil =>
    intro st
    constructor
    · intro st1 h
      simp only [buildLoop, Except.ok.injEq] at h
      subst h; rfl
    · intro e h
      simp [buildLoop] at h
  | cons t rest ih =>
    intro st
    by_cases ho : isOperator t = true
    · match st with
      | [] =>
        constructor
        · intro st1 h; simp [buildLoop, ho] at h
        · intro e h
          simp only [buildLoop, ho, Bool.not_true, Bool.false_eq_true, if_false] at h
          cases h
          exact ⟨rfl, by simp [rpnDepth, ho]⟩
      | [x] =>
        constructor
        · intro st1 h; simp [buildLoop, ho] at h
        · intro e h
          simp only [buildLoop, ho, Bool.not_true, Bool.false_eq_true, if_false] at h
          cases h
          exact ⟨rfl, by simp [rpnDepth, ho]⟩
      | right :: left :: st2 =>
        have hb : buildLoop (t :: rest) (right :: left :: st2)
            = buildLoop rest (Node.node t left right :: st2) := by
          simp [buildLoop, ho]
        have hd : rpnDepth (right :: left :: st2).length (t :: rest)
            = rpnDepth (Node.node t left right :: st2).length rest := by
          simp [rpnDepth, ho]
        rw [hb, hd]
        exact ih _
    · have hof : isOperator t = false := by simpa using ho
      have hb : buildLoop (t :: rest) st = buildLoop rest (Node.leaf t :: st) := by
        simp [buildLoop, hof]
      have hd : rpnDepth st.length (t :: rest) = rpnDepth (Node.leaf t :: st).length rest := by
        simp [rpnDepth, hof]
      rw [hb, hd]
      exact ih _

theorem buildTree_ok_iff (pfix : List Str) :
    (∃ t, buildTree pfix = .ok t) ↔ validRPN pfix = true := by
  have h := buildLoop_rpnDepth pfix []
  unfold buildTree validRPN
  cases hb : buildLoop pfix [] with
  | error e =>
    have h1 := (h.2 e hb).2
    simp only [List.length_nil] at h1
    simp [h1]
  | ok st1 =>
    have h1 := h.1 st1 hb
    simp only [List.length_nil] at h1
    rw [h1]
    match st1 with
    | [] => simp
    | [root] => simp
    | a :: b :: st2 => simp

theorem buildTree_error_malformed (pfix : List Str) (e : String)
    (h : buildTree pfix = .error e) : e = msgMalformed := by
  unfold buildTree at h
  cases hb : buildLoop pfix [] with
  | error e1 =>
    rw [hb] at h
    simp only [Except.error.injEq] at h
    rw [← h]
    exact ((buildLoop_rpnDepth pfix []).2 e1 hb).1
  | ok st1 =>
    rw [hb] at h
    match st1, h with
    | [], h => simp only [Except.error.injEq] at h; exact h.symm
    | [root], h => simp at h
    | a :: b :: st2, h => simp only [Except.error.injEq] at h; exact h.symm

/-- Claim C12. `buildTree` succeeds on a sequence exactly when the sequence is a valid
reverse-Polish expression (the depth counter, started at 0, with one more for each
non-operator token and one less for each operator token, is at least 2 before every operator
token and is 1 at the end); on every other sequence, such as `[3, 4]`, the empty sequence or
a lone operator, it fails with "Malformed expression". -/
theorem C12_buildTree_valid_rpn (pfix : List Str) :
    ((∃ t, buildTree pfix = .ok t) ↔ validRPN pfix = true) ∧
    (buildTree pfix = .error "Malformed expression" ↔ validRPN pfix = false) ∧
    buildTree [str "3", str "4"] = .error "Malformed expression" ∧
    buildTree [] = .error "Malformed expression" ∧
    buildTree [str "3", str "+"] = .error "Malformed expression" ∧
    buildTree [str "3", str "4", str "+"]
      = .ok (.node (str "+") (.leaf (str "3")) (.leaf (str "4"))) := by
  refine ⟨buildTree_ok_iff pfix, ?_, by decide, by decide, by decide, by decide⟩
  have h1 := buildTree_ok_iff pfix
  constructor
  · intro h
    cases hv : validRPN pfix with
    | false => rfl
    | true =>
      obtain ⟨t, ht⟩ := h1.2 hv
      rw [ht] at h; cases h
  · intro hv
    cases hb : buildTree pfix with
    | error e => rw [buildTree_error_malformed pfix e hb]; rfl
    | ok t =>
      have := h1.1 ⟨t, hb⟩
      rw [hv] at this; cases this

/-! ## Converter: what reaches the output -/

theorem convLoop_induct {P : ConvState → Prop} (tokens : List Str)
    (hstep : ∀ prev t st st1, P st → convStep prev t st = .ok st1 → P st1) :
    ∀ (prev : Option Str) (st st1 : ConvState), P st → convLoop prev tokens st = .ok st1 →
      P st1 := by
  induction tokens with
  | nil =>
    intro prev st st1 hP h
    simp only [convLoop, Except.ok.injEq] at h
    subst h; exact hP
  | cons t rest ih =>
    intro prev st st1 hP h
    rw [convLoop] at h
    cases hs : convStep prev t st with
    | error e => rw [hs] at h; cases h
    | ok st2 =>
      rw [hs] at h
      exact ih (some t) st2 st1 (hstep prev t st st2 hP hs) h

theorem isOperator_lparen : isOperator ['('] = false := by decide

theorem convStep_opCount {prev : Option Str} {t : Str} {st st1 : ConvState}
    (h : convStep prev t st = .ok st1) :
    st1.output.countP isOperator + st1.ops.countP isOperator =
      st.output.countP isOperator + st.ops.countP isOperator
        + (if isOperator t = true then 1 else 0) := by
  rcases convStep_cases prev t st with ⟨hn, h1⟩ | ⟨_, _, _, h1⟩ |
      ⟨_, ho, _, popped, rest, hops, _, h1⟩ | ⟨ht, h1⟩ | ⟨_, _, h1⟩ |
      ⟨ht, _, popped, rest, hops, _, ⟨_, h1⟩ | ⟨r, hr, h1⟩⟩ | ⟨_, ho, _, _, h1⟩ <;>
    rw [h1] at h <;> cases h
  · simp [isOperator_of_isNumberToken hn, List.countP_cons]
  · rw [hops]
    simp only [List.countP_append, List.countP_cons, ho, if_true]
    omega
  · subst ht
    simp [List.countP_cons, isOperator_lparen]
  · subst ht
    rw [hops, hr]
    simp only [List.countP_append, List.countP_cons, isOperator_lparen]
    have : isOperator [')'] = false := by decide
    simp only [this, Bool.false_eq_true, if_false]
    omega
  · simp [ho]

theorem convLoop_opCount (tokens : List Str) :
    ∀ (prev : Option Str) (st st1 : ConvState), convLoop prev tokens st = .ok st1 →
      st1.output.countP isOperator + st1.ops.countP isOperator =
        st.output.countP isOperator + st.ops.countP isOperator + tokens.countP isOperator := by
  induction tokens with
  | nil =>
    intro prev st st1 h
    simp only [convLoop, Except.ok.injEq] at h
    subst h; simp
  | cons t rest ih =>
    intro prev st st1 h
    rw [convLoop] at h
    cases hs : convStep prev t st with
    | error e => rw [hs] at h; cases h
    | ok st2 =>
      rw [hs] at h
      have h1 := convStep_opCount hs
      have h2 := ih (some t) st2 st1 h
      rw [List.countP_cons]
      omega

theorem drainOps_ok {ops out o : List Str} (h : drainOps ops out = .ok o) :
    o = out ++ ops ∧ ∀ x ∈ ops, x ≠ ['('] ∧ x ≠ [')'] := by
  by_cases hc : ∀ x ∈ ops, x ≠ ['('] ∧ x ≠ [')']
  · rw [(drainOps_spec ops out).1 hc] at h
    cases h
    exact ⟨rfl, hc⟩
  · rw [(drainOps_spec ops out).2 hc] at h
    cases h

theorem datacuration_ok {tokens pfix : List Str} (h : datacuration tokens = .ok pfix) :
    ∃ st, convLoop none tokens initConv = .ok st ∧ st.parenBalance = 0 ∧
      pfix = st.output ++ st.ops ∧ ∀ x ∈ st.ops, x ≠ ['('] ∧ x ≠ [')'] := by
  rw [datacuration_eq] at h
  cases hc : convLoop none tokens initConv with
  | error e => rw [hc] at h; cases h
  | ok st =>
    rw [hc] at h
    simp only at h
    by_cases hpb : st.parenBalance = 0
    · have hb : ¬((st.parenBalance != 0) = true) := by simp [hpb]
      rw [if_neg hb] at h
      obtain ⟨h1, h2⟩ := drainOps_ok h
      exact ⟨st, rfl, hpb, h1, h2⟩
    · have hb : (st.parenBalance != 0) = true := by simpa using hpb
      rw [if_pos hb] at h
      cases h

theorem datacuration_opCount {tokens pfix : List Str} (h : datacuration tokens = .ok pfix) :
    pfix.countP isOperator = tokens.countP isOperator := by
  obtain ⟨st, hc, _, hp, _⟩ := datacuration_ok h
  have := convLoop_opCount tokens none initConv st hc
  rw [hp, List.countP_append]
  simpa [initConv] using this

/-! ## Tree builder: counting leaves and operator nodes -/

theorem leafCount_eq_nodeCount_succ (t : Node) : leafCount t = nodeCount t + 1 := by
  induction t with
  | leaf v => rfl
  | node v l r ihl ihr => simp only [leafCount, nodeCount, ihl, ihr]; omega

theorem buildLoop_nodeCount (pfix : List Str) :
    ∀ st st1 : List Node, buildLoop pfix st = .ok st1 →
      (st1.map nodeCount).sum = (st.map nodeCount).sum + pfix.countP isOperator := by
  induction pfix with
  | nil =>
    intro st st1 h
    simp only [buildLoop, Except.ok.injEq] at h
    subst h; simp
  | cons t rest ih =>
    intro st st1 h
    by_cases ho : isOperator t = true
    · match st, h with
      | [], h => simp [buildLoop, ho] at h
      | [x], h => simp [buildLoop, ho] at h
      | right :: left :: st2, h =>
        have hb : buildLoop (t :: rest) (right :: left :: st2)
            = buildLoop rest (Node.node t left right :: st2) := by
          simp [buildLoop, ho]
        rw [hb] at h
        have := ih _ _ h
        rw [this, List.countP_cons]
        simp only [List.map_cons, List.sum_cons, nodeCount, ho, if_true]
        omega
    · have hof : isOperator t = false := by simpa using ho
      have hb : buildLoop (t :: rest) st = buildLoop rest (Node.leaf t :: st) := by
        simp [buildLoop, hof]
      rw [hb] at h
      have := ih _ _ h
      rw [this, List.countP_cons]
      simp [nodeCount, hof]

theorem buildTree_ok {pfix : List Str} {t : Node} (h : buildTree pfix = .ok t) :
    buildLoop pfix [] = .ok [t] := by
  unfold buildTree at h
  cases hb : buildLoop pfix [] with
  | error e => rw [hb] at h; cases h
  | ok st1 =>
    rw [hb] at h
    match st1, h with
    | [], h => cases h
    | [root], h => simp only [Except.ok.injEq] at h; rw [h]
    | a :: b :: st2, h => cases h

theorem buildTree_nodeCount {pfix : List Str} {t : Node} (h : buildTree pfix = .ok t) :
    nodeCount t = pfix.countP isOperator := by
  have := buildLoop_nodeCount pfix [] [t] (buildTree_ok h)
  simpa using this

/-- Claim C13. When `datacuration` accepts a token sequence and `buildTree` turns its output
into a tree, the tree has exactly one more leaf than the token sequence has operator tokens,
and as many operator nodes as the sequence has operator tokens. -/
theorem C13_leaf_count (tokens pfix : List Str) (t : Node)
    (h1 : datacuration tokens = .ok pfix) (h2 : buildTree pfix = .ok t) :
    leafCount t = tokens.countP isOperator + 1 ∧ nodeCount t = tokens.countP isOperator := by
  have hn : nodeCount t = tokens.countP isOperator := by
    rw [buildTree_nodeCount h2, datacuration_opCount h1]
  exact ⟨by rw [leafCount_eq_nodeCount_succ, hn], hn⟩

/-- Witness of C13 on the tokens of `3 + 4 * ( 2 - 1 )`: three operators, four leaves. -/
theorem C13_leaf_count_witness :
    leafCount (.node (str "+") (.leaf (str "3"))
        (.node (str "*") (.leaf (str "4")) (.node (str "-") (.leaf (str "2")) (.leaf (str "1")))))
      = [str "3", str "+", str "4", str "*", str "(", str "2", str "-", str "1", str ")"].countP
          isOperator + 1 ∧
    nodeCount (.node (str "+") (.leaf (str "3"))
        (.node (str "*") (.leaf (str "4")) (.node (str "-") (.leaf (str "2")) (.leaf (str "1")))))
      = [str "3", str "+", str "4", str "*", str "(", str "2", str "-", str "1", str ")"].countP
          isOperator :=
  C13_leaf_count
    [str "3", str "+", str "4", str "*", str "(", str "2", str "-", str "1", str ")"]
    [str "3", str "4", str "2", str "1", str "-", str "*", str "+"]
    (.node (str "+") (.leaf (str "3"))
      (.node (str "*") (.leaf (str "4")) (.node (str "-") (.leaf (str "2")) (.leaf (str "1")))))
    (by decide) (by decide)

/-! ## The leaves of the tree are the Number tokens of the input -/

theorem filter_notOp_operators {l : List Str} (h : ∀ x ∈ l, isOperator x = true) :
    l.filter (fun x => !isOperator x) = [] := by
  induction l with
  | nil => rfl
  | cons a l ih =>
    have ha := h a (by simp)
    rw [List.filter_cons]
    simp only [ha, Bool.not_true, Bool.false_eq_true, if_false]
    exact ih (fun x hx => h x (by simp [hx]))

theorem convStep_numbers {prev : Option Str} {t : Str} {st st1 : ConvState}
    (hops : ∀ x ∈ st.ops, isOperator x = true ∨ x = ['('])
    (h : convStep prev t st = .ok st1) :
    st1.output.filter (fun x => !isOperator x) =
        st.output.filter (fun x => !isOperator x) ++ (if isNumberToken t = true then [t] else []) ∧
    (∀ x ∈ st1.ops, isOperator x = true ∨ x = ['(']) := by
  rcases convStep_cases prev t st with ⟨hn, h1⟩ | ⟨_, _, _, h1⟩ |
      ⟨hn, ho, _, popped, rest, hsplit, hpop, h1⟩ | ⟨ht, h1⟩ | ⟨_, _, h1⟩ |
      ⟨ht, _, popped, rest, hsplit, hpop, ⟨_, h1⟩ | ⟨r, hr, h1⟩⟩ | ⟨hn, _, _, _, h1⟩ <;>
    rw [h1] at h <;> cases h
  · refine ⟨?_, hops⟩
    simp [hn, List.filter_cons, isOperator_of_isNumberToken hn]
  · constructor
    · simp [hn, filter_notOp_operators hpop]
    · intro x hx
      rcases List.mem_cons.1 hx with h2 | h2
      · subst h2; exact Or.inl ho
      · exact hops x (by rw [hsplit]; simp [h2])
  · subst ht
    constructor
    · have : isNumberToken ['('] = false := by decide
      simp [this]
    · intro x hx
      rcases List.mem_cons.1 hx with h2 | h2
      · exact Or.inr h2
      · exact hops x h2
  · subst ht
    have hpop1 : ∀ x ∈ popped, isOperator x = true := by
      intro x hx
      rcases hops x (by rw [hsplit]; simp [hx]) with h2 | h2
      · exact h2
      · exact absurd h2 (hpop x hx)
    constructor
    · have : isNumberToken [')'] = false := by decide
      simp [this, filter_notOp_operators hpop1]
    · intro x hx
      exact hops x (by rw [hsplit, hr]; simp [hx])
  · exact ⟨by simp [hn], hops⟩

theorem convLoop_numbers (tokens : List Str) :
    ∀ (prev : Option Str) (st st1 : ConvState),
      (∀ x ∈ st.ops, isOperator x = true ∨ x = ['(']) → convLoop prev tokens st = .ok st1 →
      st1.output.filter (fun x => !isOperator x) =
          st.output.filter (fun x => !isOperator x) ++ tokens.filter isNumberToken ∧
      (∀ x ∈ st1.ops, isOperator x = true ∨ x = ['(']) := by
  induction tokens with
  | nil =>
    intro prev st st1 hops h
    simp only [convLoop, Except.ok.injEq] at h
    subst h; exact ⟨by simp, hops⟩
  | cons t rest ih =>
    intro prev st st1 hops h
    rw [convLoop] at h
    cases hs : convStep prev t st with
    | error e => rw [hs] at h; cases h
    | ok st2 =>
      rw [hs] at h
      obtain ⟨h1, h2⟩ := convStep_numbers hops hs
      obtain ⟨h3, h4⟩ := ih (some t) st2 st1 h2 h
      refine ⟨?_, h4⟩
      rw [h3, h1, List.filter_cons]
      by_cases hn : isNumberToken t = true <;> simp [hn]

theorem datacuration_numbers {tokens pfix : List Str} (h : datacuration tokens = .ok pfix) :
    pfix.filter (fun x => !isOperator x) = tokens.filter isNumberToken := by
  obtain ⟨st, hc, _, hp, hdrain⟩ := datacuration_ok h
  obtain ⟨h1, h2⟩ := convLoop_numbers tokens none initConv st (by simp [initConv]) hc
  have hopsAll : ∀ x ∈ st.ops, isOperator x = true := by
    intro x hx
    rcases h2 x hx with h3 | h3
    · exact h3
    · exact absurd h3 (hdrain x hx).1
  rw [hp, List.filter_append, h1, filter_notOp_operators hopsAll]
  simp [initConv]

theorem buildLoop_leaves (pfix : List Str) :
    ∀ st st1 : List Node, buildLoop pfix st = .ok st1 →
      (st1.reverse.map leaves).flatten =
        (st.reverse.map leaves).flatten ++ pfix.filter (fun x => !isOperator x) := by
  induction pfix with
  | nil =>
    intro st st1 h
    simp only [buildLoop, Except.ok.injEq] at h
    subst h; simp
  | cons t rest ih =>
    intro st st1 h
    by_cases ho : isOperator t = true
    · match st, h with
      | [], h => simp [buildLoop, ho] at h
      | [x], h => simp [buildLoop, ho] at h
      | right :: left :: st2, h =>
        have hb : buildLoop (t :: rest) (right :: left :: st2)
            = buildLoop rest (Node.node t left right :: st2) := by
          simp [buildLoop, ho]
        rw [hb] at h
        rw [ih _ _ h, List.filter_cons]
        simp [leaves, ho]
    · have hof : isOperator t = false := by simpa using ho
      have hb : buildLoop (t :: rest) st = buildLoop rest (Node.leaf t :: st) := by
        simp [buildLoop, hof]
      rw [hb] at h
      rw [ih _ _ h, List.filter_cons]
      simp [leaves, hof]

theorem buildTree_leaves {pfix : List Str} {t : Node} (h : buildTree pfix = .ok t) :
    leaves t = pfix.filter (fun x => !isOperator x) := by
  have := buildLoop_leaves pfix [] [t] (buildTree_ok h)
  simpa using this

theorem leaves_of_pipeline {tokens pfix : List Str} {t : Node}
    (h1 : datacuration tokens = .ok pfix) (h2 : buildTree pfix = .ok t) :
    leaves t = tokens.filter isNumberToken := by
  rw [buildTree_leaves h2, datacuration_numbers h1]

theorem length_leaves (t : Node) : (leaves t).length = leafCount t := by
  induction t with
  | leaf v => rfl
  | node v l r ihl ihr => simp [leaves, leafCount, ihl, ihr]

/-! ## The literals at the leaves -/

/-- Claim C14, counterexample. The input `"1.2.3"` passes the tokenizer, the converter and the
tree builder, and the leaf of its tree holds `1.2.3`, which has two dots and is no well-formed
decimal numeral. And a well-formed numeral need not parse: the input of 400 digits `9` passes
the three stages too, and `stod` throws on its leaf, whose value is out of the range of
`double`. -/
theorem C14_leaf_with_two_dots :
    tokenize (str "1.2.3") = .ok [str "1.2.3"] ∧
    datacuration [str "1.2.3"] = .ok [str "1.2.3"] ∧
    buildTree [str "1.2.3"] = .ok (.leaf (str "1.2.3")) ∧
    leaves (.leaf (str "1.2.3")) = [str "1.2.3"] ∧
    isNumeral (str "1.2.3") = false ∧
    tokenize hugeLiteral = .ok [hugeLiteral] ∧
    datacuration [hugeLiteral] = .ok [hugeLiteral] ∧
    buildTree [hugeLiteral] = .ok (.leaf hugeLiteral) ∧
    isNumeral hugeLiteral = true ∧
    eval rangeArith (.leaf hugeLiteral) = .error "stod" := by
  refine ⟨by decide, by decide, by decide, by decide, by decide, by decide!, by decide!,
    by decide!, by decide!, by decide!⟩

/-- The look-ahead of lines 77-81 takes a `.` for a digit: `"-."` becomes the Number token
`-.`, which reaches a leaf although it holds no digit, and `stod` rejects it. -/
theorem negative_literal_without_digit :
    tokenize (str "-.") = .ok [str "-."] ∧
    treeOf [str "-."] = .ok (.leaf (str "-.")) ∧
    isNumeral (str "-.") = false ∧
    run refArith (str "-.") = .error "stod" := by
  refine ⟨by decide, by decide, by decide, by decide!⟩

theorem isNumLexeme_of_number_token {v : Str} (hc : tokClass v = true)
    (hn : isNumberToken v = true) : isNumLexeme v = true := by
  simp only [tokClass, Bool.or_eq_true] at hc
  rcases hc with ((hc | hc) | hc) | hc
  · exact hc
  · rw [isOperator_of_isNumberToken hn] at hc; cases hc
  · rw [ne_lparen_of_isNumberToken hn] at hc; cases hc
  · rw [ne_rparen_of_isNumberToken hn] at hc; cases hc

theorem digit_of_unsigned_number_token {v : Str} (hn : isNumberToken v = true)
    (hs : v.head? ≠ some '-') : v.any isdigit = true := by
  cases v with
  | nil => revert hn; decide
  | cons c cs =>
    have hc : c ≠ '-' := by
      intro h0; subst h0; exact hs rfl
    by_cases h1 : isdigit c = true
    · simp [h1]
    · cases cs with
      | nil => simp [isNumberToken, charAt, h1] at hn
      | cons d ds =>
        have hd : isdigit d = true := by
          simpa [isNumberToken, charAt, h1, hc] using hn
        simp [hd]

/-- Claim C14, amended. When `tokenize`, `datacuration` and `buildTree` all succeed, every leaf
of the tree holds a token of the input made of an optional leading `-` followed by a
non-empty run of digits and `.` characters, and a leaf without a leading `-` contains at
least one digit. -/
theorem C14_leaf_lexemes (input : Str) (tokens pfix : List Str) (t : Node)
    (h0 : tokenize input = .ok tokens) (h1 : datacuration tokens = .ok pfix)
    (h2 : buildTree pfix = .ok t) :
    ∀ v ∈ leaves t,
      v ∈ tokens ∧ isNumLexeme v = true ∧ (v.head? ≠ some '-' → v.any isdigit = true) := by
  have hl := leaves_of_pipeline h1 h2
  intro v hv
  rw [hl, List.mem_filter] at hv
  obtain ⟨hmem, hn⟩ := hv
  exact ⟨hmem, isNumLexeme_of_number_token ((tokenize_inv h0).1 v hmem) hn,
    digit_of_unsigned_number_token hn⟩

/-- Witness of C14 (amended) on `"1.2.3 + -4"`. -/
theorem C14_leaf_lexemes_witness :
    leaves (.node (str "+") (.leaf (str "1.2.3")) (.leaf (str "-4"))) = [str "1.2.3", str "-4"] ∧
    ∀ v ∈ leaves (.node (str "+") (.leaf (str "1.2.3")) (.leaf (str "-4"))),
      v ∈ [str "1.2.3", str "+", str "-4"] ∧ isNumLexeme v = true ∧
        (v.head? ≠ some '-' → v.any isdigit = true) :=
  ⟨by decide,
   C14_leaf_lexemes (str "1.2.3 + -4") [str "1.2.3", str "+", str "-4"]
    [str "1.2.3", str "-4", str "+"]
    (.node (str "+") (.leaf (str "1.2.3")) (.leaf (str "-4")))
    (by decide) (by decide) (by decide)⟩

/-! ## The unknown-operator error -/

theorem buildLoop_rpnTree (pfix : List Str) :
    ∀ st st1 : List Node, buildLoop pfix st = .ok st1 → (∀ n ∈ st, rpnTree n = true) →
      ∀ n ∈ st1, rpnTree n = true := by
  induction pfix with
  | nil =>
    intro st st1 h hst
    simp only [buildLoop, Except.ok.injEq] at h
    subst h; exact hst
  | cons t rest ih =>
    intro st st1 h hst
    by_cases ho : isOperator t = true
    · match st, h, hst with
      | [], h, _ => simp [buildLoop, ho] at h
      | [x], h, _ => simp [buildLoop, ho] at h
      | right :: left :: st2, h, hst =>
        have hb : buildLoop (t :: rest) (right :: left :: st2)
            = buildLoop rest (Node.node t left right :: st2) := by
          simp [buildLoop, ho]
        rw [hb] at h
        refine ih _ _ h ?_
        intro n hn
        rcases List.mem_cons.1 hn with h3 | h3
        · subst h3
          simp [rpnTree, ho, hst left (by simp), hst right (by simp)]
        · exact hst n (by simp [h3])
    · have hof : isOperator t = false := by simpa using ho
      have hb : buildLoop (t :: rest) st = buildLoop rest (Node.leaf t :: st) := by
        simp [buildLoop, hof]
      rw [hb] at h
      refine ih _ _ h ?_
      intro n hn
      rcases List.mem_cons.1 hn with h3 | h3
      · subst h3; simp [rpnTree, hof]
      · exact hst n h3

theorem buildTree_rpnTree {pfix : List Str} {t : Node} (h : buildTree pfix = .ok t) :
    rpnTree t = true :=
  buildLoop_rpnTree pfix [] [t] (buildTree_ok h) (by simp) t (by simp)

theorem innerSymbols_of_rpnTree (t : Node) (h : rpnTree t = true) :
    ∀ v ∈ innerSymbols t, isOperator v = true := by
  induction t with
  | leaf v => intro x hx; simp [innerSymbols] at hx
  | node v l r ihl ihr =>
    simp only [rpnTree, Bool.and_eq_true] at h
    intro x hx
    simp only [innerSymbols, List.mem_cons, List.mem_append] at hx
    rcases hx with h1 | h1 | h1
    · subst h1; exact h.1.1
    · exact ihl h.1.2 x h1
    · exact ihr h.2 x h1

theorem eval_not_unknown {α : Type} (A : Arith α)
    (hstod : ∀ s e, A.stod s = .error e → e ≠ msgUnknownOp) (t : Node)
    (h : rpnTree t = true) : eval A t ≠ .error msgUnknownOp := by
  induction t with
  | leaf v =>
    intro h1
    exact hstod v _ h1 rfl
  | node v l r ihl ihr =>
    simp only [rpnTree, Bool.and_eq_true] at h
    obtain ⟨⟨hv, hl⟩, hr⟩ := h
    intro h1
    rw [eval] at h1
    cases hel : eval A l with
    | error e =>
      rw [hel] at h1
      simp only [Except.error.injEq] at h1
      exact ihl hl (by rw [hel, h1])
    | ok x =>
      rw [hel] at h1
      simp only at h1
      cases her : eval A r with
      | error e =>
        rw [her] at h1
        simp only [Except.error.injEq] at h1
        exact ihr hr (by rw [her, h1])
      | ok y =>
        rw [her] at h1
        simp only at h1
        rcases (isOperator_iff v).1 hv with h2 | h2 | h2 | h2 | h2 <;> subst h2
        · simp at h1
        · simp at h1
        · simp at h1
        · by_cases hz : A.isZero y = true
          · simp [hz] at h1
            revert h1; decide
          · simp [hz] at h1
        · simp at h1

/-- Claim C15. The unknown-operator error is unreachable on the trees the builder produces:
when `buildTree` succeeds, every operator node of the tree (a node with two children) holds one
of `+ - * / ^` and every other node is a leaf, so `eval` never fails with "Unknown operator"
(the errors of `stod` carry another message). -/
theorem C15_unknown_operator_unreachable {α : Type} (A : Arith α) (pfix : List Str) (t : Node)
    (h : buildTree pfix = .ok t)
    (hstod : ∀ s e, A.stod s = .error e → e ≠ "Unknown operator") :
    (∀ v ∈ innerSymbols t, v = ['+'] ∨ v = ['-'] ∨ v = ['*'] ∨ v = ['/'] ∨ v = ['^']) ∧
    rpnTree t = true ∧
    eval A t ≠ .error "Unknown operator" := by
  have hr := buildTree_rpnTree h
  refine ⟨?_, hr, eval_not_unknown A hstod t hr⟩
  intro v hv
  exact (isOperator_iff v).1 (innerSymbols_of_rpnTree t hr v hv)

theorem ite_error_stod (b : Bool) (x : Option ℚ) (e : String)
    (h : (if b = true then (Except.error "stod" : Res (Option ℚ)) else .ok x) = .error e) :
    e = "stod" := by
  cases b with
  | true => simp only [if_true, Except.error.injEq] at h; exact h.symm
  | false => simp at h

theorem refStod_error (s : Str) (e : String) (h : refStod s = .error e) : e = "stod" :=
  ite_error_stod _ _ e h

/-- Witness of C15 on the reverse-Polish sequence `3 4 +` in the reference number model. -/
theorem C15_unknown_operator_unreachable_witness :
    (∀ v ∈ innerSymbols (.node (str "+") (.leaf (str "3")) (.leaf (str "4"))),
      v = ['+'] ∨ v = ['-'] ∨ v = ['*'] ∨ v = ['/'] ∨ v = ['^']) ∧
    rpnTree (.node (str "+") (.leaf (str "3")) (.leaf (str "4"))) = true ∧
    eval refArith (.node (str "+") (.leaf (str "3")) (.leaf (str "4")))
      ≠ .error "Unknown operator" :=
  C15_unknown_operator_unreachable refArith [str "3", str "4", str "+"]
    (.node (str "+") (.leaf (str "3")) (.leaf (str "4"))) (by decide)
    (fun s e h => by rw [refStod_error s e h]; decide)

/-! ## Tokens the converter skips -/

/-- Claim C16, the code at the failing input `"3 . + 4"`: the tokenizer emits the numeric
lexeme `.`, the converter takes it for none of Number, Operator, `(` or `)` and leaves its
state unchanged, the output has three tokens for four tokens that are not parentheses, and the
pipeline returns 7. Likewise `"..5"` tokenizes to one lexeme and converts to nothing. -/
theorem C16_skipped_lexeme :
    tokenize (str "3 . + 4") = .ok [str "3", str ".", str "+", str "4"] ∧
    isNumLexeme (str ".") = true ∧
    isNumberToken (str ".") = false ∧ isOperator (str ".") = false ∧
    str "." ≠ ['('] ∧ str "." ≠ [')'] ∧
    convStep (some (str "3")) (str ".") { output := [str "3"], ops := [], parenBalance := 0 }
      = .ok { output := [str "3"], ops := [], parenBalance := 0 } ∧
    datacuration [str "3", str ".", str "+", str "4"] = .ok [str "3", str "4", str "+"] ∧
    run refArith (str "3 . + 4") = .ok (some 7) ∧
    tokenize (str "..5") = .ok [str "..5"] ∧ datacuration [str "..5"] = .ok [] := by
  refine ⟨by decide, by decide, by decide, by decide, by decide, by decide, by decide,
    by decide, by decide!, by decide, by decide⟩

/-! ## The tree builder inverts the post-order traversal -/

/-- Claim C17. `buildTree` preserves operand order and inverts the post-order traversal: for
every tree whose leaves hold non-operator strings and whose inner nodes hold operators,
`buildTree (postorder t)` returns `t`; at an operator the first-popped node becomes the right
child and the second-popped node the left child. -/
theorem C17_buildTree_postorder (t : Node) (h : rpnTree t = true) :
    buildTree (postorder t) = .ok t ∧
    ∀ (op : Str) (first second : Node) (rest : List Str) (st : List Node),
      isOperator op = true →
      buildLoop (op :: rest) (first :: second :: st)
        = buildLoop rest (.node op second first :: st) := by
  refine ⟨buildTree_postorder t h, ?_⟩
  intro op first second rest st hop
  simp [buildLoop, hop]

/-- Witness of C17 on the tree `-(8, /(6, 3))`, whose leaves are in operand order. -/
theorem C17_buildTree_postorder_witness :
    postorder (.node (str "-") (.leaf (str "8"))
        (.node (str "/") (.leaf (str "6")) (.leaf (str "3"))))
      = [str "8", str "6", str "3", str "/", str "-"] ∧
    (buildTree (postorder (.node (str "-") (.leaf (str "8"))
        (.node (str "/") (.leaf (str "6")) (.leaf (str "3")))))
      = .ok (.node (str "-") (.leaf (str "8"))
        (.node (str "/") (.leaf (str "6")) (.leaf (str "3")))) ∧
    ∀ (op : Str) (first second : Node) (rest : List Str) (st : List Node),
      isOperator op = true →
      buildLoop (op :: rest) (first :: second :: st)
        = buildLoop rest (.node op second first :: st)) :=
  ⟨by decide,
   C17_buildTree_postorder
     (.node (str "-") (.leaf (str "8")) (.node (str "/") (.leaf (str "6")) (.leaf (str "3"))))
     (by decide)⟩

/-! ## What the pipeline accepts -/

theorem alternates_of_infixExpr {ts : List Str} (h : InfixExpr ts) :
    ∀ rest, alternates true (ts ++ rest) = alternates false rest := by
  induction h with
  | number n hn =>
    intro rest
    simp [alternates, hn]
  | binary l op r _ hop _ ihl ihr =>
    intro rest
    have e1 : l ++ op :: r ++ rest = l ++ (op :: (r ++ rest)) := by simp
    rw [e1, ihl, alternates]
    simp only [hop, if_true]
    exact ihr rest
  | paren e _ ih =>
    intro rest
    have e1 : ['('] :: e ++ [[')']] ++ rest = ['('] :: (e ++ ([')'] :: rest)) := by simp
    have h1 : (isNumLexeme ['('] || isNumberToken ['(']) = false := by decide
    have h2 : isOperator [')'] = false := by decide
    rw [e1, alternates]
    simp only [h1, Bool.false_eq_true, if_false, beq_self_eq_true, if_true]
    rw [ih, alternates]
    simp [h2]

theorem alternates_of_infixExpr_nil {ts : List Str} (h : InfixExpr ts) :
    alternates true ts = true := by
  have := alternates_of_infixExpr h []
  simpa [alternates] using this

/-- Claim C18, counterexample. The token sequences of `"3 4 +"` (adjacent operands) and of
`"3 ()"` (empty parentheses) are not generated by the grammar, yet the converter and the tree
builder accept both: `"3 4 +"` builds `+(3, 4)` and evaluates to 7, `"3 ()"` builds the leaf
`3`. -/
theorem C18_accepts_outside_grammar :
    tokenize (str "3 4 +") = .ok [str "3", str "4", str "+"] ∧
    ¬ InfixExpr [str "3", str "4", str "+"] ∧
    datacuration [str "3", str "4", str "+"] = .ok [str "3", str "4", str "+"] ∧
    buildTree [str "3", str "4", str "+"]
      = .ok (.node (str "+") (.leaf (str "3")) (.leaf (str "4"))) ∧
    run refArith (str "3 4 +") = .ok (some 7) ∧
    tokenize (str "3 ()") = .ok [str "3", str "(", str ")"] ∧
    ¬ InfixExpr [str "3", str "(", str ")"] ∧
    datacuration [str "3", str "(", str ")"] = .ok [str "3"] ∧
    buildTree [str "3"] = .ok (.leaf (str "3")) ∧
    run refArith (str "3 ()") = .ok (some 3) := by
  refine ⟨by decide, ?_, by decide, by decide, by decide!, by decide, ?_, by decide, by decide,
    by decide!⟩
  · intro h
    exact absurd (alternates_of_infixExpr_nil h) (by decide)
  · intro h
    exact absurd (alternates_of_infixExpr_nil h) (by decide)

theorem convLoop_no_misplaced {tokens : List Str} {st : ConvState}
    (h : convLoop none tokens initConv = .ok st) (pre : List Str) (op : Str) (post : List Str)
    (hsplit : tokens = pre ++ op :: post) (hop : isOperator op = true) :
    ∃ pre1 p, pre = pre1 ++ [p] ∧ isOperator p = false ∧ p ≠ ['('] := by
  subst hsplit
  rw [convLoop_append] at h
  cases hpre : convLoop none pre initConv with
  | error e => rw [hpre] at h; cases h
  | ok st1 =>
    rw [hpre] at h
    simp only at h
    rw [convLoop] at h
    have hmis : opMisplaced (prevAfter none pre) = false := by
      rcases convStep_cases (prevAfter none pre) op st1 with ⟨h0, _⟩ | ⟨_, _, _, h1⟩ |
          ⟨_, _, h0, _⟩ | ⟨h0, _⟩ | ⟨h0, _⟩ | ⟨h0, _⟩ | ⟨_, h0, _⟩
      · rw [isNumberToken_of_isOperator hop] at h0; cases h0
      · rw [h1] at h; cases h
      · exact h0
      · rw [h0] at hop; exact absurd hop (by decide)
      · rw [h0] at hop; exact absurd hop (by decide)
      · rw [h0] at hop; exact absurd hop (by decide)
      · rw [hop] at h0; cases h0
    rcases List.eq_nil_or_concat pre with h0 | ⟨pre1, p, h0⟩
    · subst h0; exact absurd hmis (by decide)
    · rw [List.concat_eq_append] at h0
      subst h0
      rw [prevAfter_snoc] at hmis
      simp only [opMisplaced, Bool.or_eq_false_iff] at hmis
      exact ⟨pre1, p, rfl, hmis.1, by simpa using hmis.2⟩

theorem convLoop_ok_balanced {tokens : List Str} {st : ConvState}
    (h : convLoop none tokens initConv = .ok st) (hz : st.parenBalance = 0) :
    (∀ pre, pre <+: tokens → pre.count [')'] ≤ pre.count ['(']) ∧
    tokens.count ['('] = tokens.count [')'] := by
  obtain ⟨h1, h2⟩ := convLoop_balance tokens none initConv st h (le_refl _)
  constructor
  · intro pre hpre
    have := h1 pre hpre
    simp only [initConv, zero_add] at this
    exact_mod_cast this
  · rw [hz] at h2
    simp only [initConv, zero_add] at h2
    omega

theorem treeOf_ok {tokens : List Str} {t : Node} (h : treeOf tokens = .ok t) :
    ∃ pfix, datacuration tokens = .ok pfix ∧ buildTree pfix = .ok t := by
  unfold treeOf at h
  cases hd : datacuration tokens with
  | error e => rw [hd] at h; cases h
  | ok pfix => rw [hd] at h; exact ⟨pfix, rfl, h⟩

/-- Claim C18, amended. When `tokenize`, `datacuration` and `buildTree` all succeed on an
input, its token sequence has balanced parentheses (no prefix has more `)` than `(`, and the
totals agree), each of its operator tokens follows a token that is neither an operator nor
`(`, and it has more Number tokens than operator tokens. -/
theorem C18_accepted_sequences (input : Str) (tokens : List Str) (t : Node)
    (h0 : tokenize input = .ok tokens) (h : treeOf tokens = .ok t) :
    ((∀ pre, pre <+: tokens → pre.count [')'] ≤ pre.count ['(']) ∧
      tokens.count ['('] = tokens.count [')']) ∧
    (∀ pre op post, tokens = pre ++ op :: post → isOperator op = true →
      ∃ pre1 p, pre = pre1 ++ [p] ∧ isOperator p = false ∧ p ≠ ['(']) ∧
    tokens.countP isOperator < tokens.countP isNumLexeme := by
  obtain ⟨pfix, h1, h2⟩ := treeOf_ok h
  obtain ⟨st, hc, hz, _, _⟩ := datacuration_ok h1
  refine ⟨convLoop_ok_balanced hc hz, convLoop_no_misplaced hc, ?_⟩
  have hl := leaves_of_pipeline h1 h2
  have hn : nodeCount t = tokens.countP isOperator := by
    rw [buildTree_nodeCount h2, datacuration_opCount h1]
  have hcount : tokens.countP isNumberToken = tokens.countP isOperator + 1 := by
    rw [List.countP_eq_length_filter, ← hl, length_leaves, leafCount_eq_nodeCount_succ, hn]
  have hle : tokens.countP isNumberToken ≤ tokens.countP isNumLexeme :=
    List.countP_mono_left (fun x hx hnum =>
      isNumLexeme_of_number_token ((tokenize_inv h0).1 x hx) hnum)
  omega

/-- Witness of C18 (amended) on the accepted input `"3 4 +"`. The conditions are necessary
only: the tokens of `"(3 +) 4"` meet them and are rejected, as are those of `"3 +"`, which
has one Number token and one operator. -/
theorem C18_accepted_sequences_witness :
    treeOf [str "3", str "+"] = .error "Malformed expression" ∧
    tokenize (str "(3 +) 4") = .ok [str "(", str "3", str "+", str ")", str "4"] ∧
    treeOf [str "(", str "3", str "+", str ")", str "4"] = .error "Malformed expression" ∧
    ((∀ pre, pre <+: [str "3", str "4", str "+"] → pre.count [')'] ≤ pre.count ['(']) ∧
      [str "3", str "4", str "+"].count ['('] = [str "3", str "4", str "+"].count [')']) ∧
    (∀ pre op post, [str "3", str "4", str "+"] = pre ++ op :: post → isOperator op = true →
      ∃ pre1 p, pre = pre1 ++ [p] ∧ isOperator p = false ∧ p ≠ ['(']) ∧
    [str "3", str "4", str "+"].countP isOperator
      < [str "3", str "4", str "+"].countP isNumLexeme :=
  ⟨by decide, by decide, by decide,
   C18_accepted_sequences (str "3 4 +") [str "3", str "4", str "+"]
    (.node (str "+") (.leaf (str "3")) (.leaf (str "4"))) (by decide) (by decide)⟩

/-! ## The parenthesis counter and the operator stack -/

theorem count_lparen_operators {l : List Str} (h : ∀ x ∈ l, isOperator x = true) :
    l.count ['('] = 0 := by
  apply List.count_eq_zero_of_not_mem
  intro hmem
  have := h _ hmem
  rw [isOperator_lparen] at this
  cases this

theorem convStep_parenInv {prev : Option Str} {t : Str} {st st1 : ConvState}
    (hinv : st.parenBalance = st.ops.count ['('] ∧ [')'] ∉ st.ops)
    (h : convStep prev t st = .ok st1) :
    st1.parenBalance = st1.ops.count ['('] ∧ [')'] ∉ st1.ops := by
  obtain ⟨hpb, hnr⟩ := hinv
  rcases convStep_cases prev t st with ⟨_, h1⟩ | ⟨_, _, _, h1⟩ |
      ⟨_, ho, _, popped, rest, hsplit, hpop, h1⟩ | ⟨ht, h1⟩ | ⟨_, _, h1⟩ |
      ⟨ht, _, popped, rest, hsplit, hpop, ⟨_, h1⟩ | ⟨r, hr, h1⟩⟩ | ⟨_, _, _, _, h1⟩ <;>
    rw [h1] at h <;> cases h
  · exact ⟨hpb, hnr⟩
  · have ht1 : t ≠ ['('] := by intro h0; rw [h0] at ho; exact absurd ho (by decide)
    have ht2 : t ≠ [')'] := by intro h0; rw [h0] at ho; exact absurd ho (by decide)
    constructor
    · show st.parenBalance = ((t :: rest).count ['('] : Int)
      rw [hpb, hsplit, List.count_append, count_lparen_operators hpop, List.count_cons]
      simp [ht1]
    · show [')'] ∉ t :: rest
      intro hmem
      rcases List.mem_cons.1 hmem with h2 | h2
      · exact ht2 h2.symm
      · exact hnr (by rw [hsplit]; simp [h2])
  · subst ht
    constructor
    · show st.parenBalance + 1 = (((['('] : Str) :: st.ops).count ['('] : Int)
      rw [hpb, List.count_cons]
      simp
    · show [')'] ∉ (['('] : Str) :: st.ops
      intro hmem
      rcases List.mem_cons.1 hmem with h2 | h2
      · exact absurd h2 (by decide)
      · exact hnr h2
  · constructor
    · show st.parenBalance - 1 = (r.count ['('] : Int)
      rw [hpb, hsplit, hr, List.count_append, List.count_eq_zero_of_not_mem
        (fun hmem => hpop _ hmem rfl), List.count_cons]
      simp
    · show [')'] ∉ r
      intro hmem
      exact hnr (by rw [hsplit, hr]; simp [hmem])
  · exact ⟨hpb, hnr⟩

theorem convLoop_parenInv {pre : List Str} {st : ConvState}
    (h : convLoop none pre initConv = .ok st) :
    st.parenBalance = st.ops.count ['('] ∧ [')'] ∉ st.ops :=
  convLoop_induct (P := fun s => s.parenBalance = s.ops.count ['('] ∧ [')'] ∉ s.ops) pre
    (fun _ _ _ _ hP hs => convStep_parenInv hP hs) none initConv st
    (by simp [initConv]) h

theorem convLoop_error (tokens : List Str) :
    ∀ (prev : Option Str) (st : ConvState) (e : String), convLoop prev tokens st = .error e →
      ∃ pre t post st1, tokens = pre ++ t :: post ∧ convLoop prev pre st = .ok st1 ∧
        convStep (prevAfter prev pre) t st1 = .error e := by
  induction tokens with
  | nil => intro prev st e h; simp [convLoop] at h
  | cons t rest ih =>
    intro prev st e h
    rw [convLoop] at h
    cases hs : convStep prev t st with
    | error e1 =>
      rw [hs] at h
      simp only [Except.error.injEq] at h
      subst h
      exact ⟨[], t, rest, st, rfl, rfl, hs⟩
    | ok st2 =>
      rw [hs] at h
      obtain ⟨pre, u, post, st1, h1, h2, h3⟩ := ih (some t) st2 e h
      refine ⟨t :: pre, u, post, st1, by simp [h1], ?_, ?_⟩
      · rw [convLoop, hs]; exact h2
      · rw [prevAfter_cons]; exact h3

theorem popToParen_nonempty {st : ConvState}
    (hinv : st.parenBalance = st.ops.count ['(']) (hpb : ¬(st.parenBalance - 1 < 0)) :
    (popToParen st.ops st.output).2 ≠ [] := by
  obtain ⟨popped, rest, hsplit, hpop, hno, hrest⟩ := popToParen_spec st.ops st.output
  rw [hpop]
  intro h0
  have h1 : rest = [] := h0
  have hc : st.ops.count ['('] = 0 := by
    rw [hsplit, h1, List.append_nil]
    exact List.count_eq_zero_of_not_mem (fun hmem => hno _ hmem rfl)
  rw [hc] at hinv
  omega

theorem drainOps_of_balanced {st : ConvState}
    (hinv : st.parenBalance = st.ops.count ['('] ∧ [')'] ∉ st.ops)
    (hz : st.parenBalance = 0) : drainOps st.ops st.output = .ok (st.output ++ st.ops) := by
  apply (drainOps_spec st.ops st.output).1
  intro x hx
  constructor
  · intro h0
    subst h0
    have : 0 < st.ops.count ['('] := List.count_pos_iff.2 hx
    have h1 := hinv.1
    rw [hz] at h1
    omega
  · intro h0
    subst h0
    exact hinv.2 hx

/-- Claim C19. In `datacuration` the counter `parenBalance` always equals the number of `(`
entries on the operator stack and `)` is never on that stack. Hence the pop loop of a `)` token
that passed the `parenBalance < 0` check never empties the stack (line 133 is unreachable), the
drain loop of a run that passed the `parenBalance != 0` check never meets a parenthesis (line
142 is unreachable), and every "Mismatched parentheses" failure comes from one of those two
checks. -/
theorem C19_paren_counter (tokens : List Str) :
    (∀ pre st, convLoop none pre initConv = .ok st →
      st.parenBalance = st.ops.count ['('] ∧ [')'] ∉ st.ops ∧
      (¬(st.parenBalance - 1 < 0) → (popToParen st.ops st.output).2 ≠ []) ∧
      (st.parenBalance = 0 → drainOps st.ops st.output = .ok (st.output ++ st.ops))) ∧
    (datacuration tokens = .error "Mismatched parentheses" →
      (∃ pre post st, tokens = pre ++ [')'] :: post ∧ convLoop none pre initConv = .ok st ∧
        st.parenBalance - 1 < 0) ∨
      (∃ st, convLoop none tokens initConv = .ok st ∧ st.parenBalance ≠ 0)) := by
  constructor
  · intro pre st h
    have hinv := convLoop_parenInv h
    exact ⟨hinv.1, hinv.2, popToParen_nonempty hinv.1, drainOps_of_balanced hinv⟩
  · intro h
    rw [datacuration_eq] at h
    cases hc : convLoop none tokens initConv with
    | error e =>
      rw [hc] at h
      simp only [Except.error.injEq] at h
      obtain ⟨pre, t, post, st1, hsplit, hpre, hstep⟩ := convLoop_error tokens none initConv e hc
      have hinv := convLoop_parenInv hpre
      rcases convStep_cases (prevAfter none pre) t st1 with ⟨_, h1⟩ | ⟨_, _, _, h1⟩ |
          ⟨_, _, _, _, _, _, _, h1⟩ | ⟨_, h1⟩ | ⟨ht, hlt, _⟩ |
          ⟨ht, hge, popped, rest, hops, hpop, ⟨hrest, _⟩ | ⟨_, _, h1⟩⟩ | ⟨_, _, _, _, h1⟩
      · rw [h1] at hstep; cases hstep
      · rw [h1] at hstep
        simp only [Except.error.injEq] at hstep
        rw [← hstep] at h
        exact absurd h (by decide)
      · rw [h1] at hstep; cases hstep
      · rw [h1] at hstep; cases hstep
      · subst ht
        exact Or.inl ⟨pre, post, st1, hsplit, hpre, hlt⟩
      · exfalso
        have hne := popToParen_nonempty hinv.1 hge
        obtain ⟨popped1, rest1, hs1, hp1, hn1, _⟩ := popToParen_spec st1.ops st1.output
        have hc0 : st1.ops.count ['('] = 0 := by
          rw [hops, hrest, List.append_nil]
          exact List.count_eq_zero_of_not_mem (fun hmem => hpop _ hmem rfl)
        have := hinv.1
        rw [hc0] at this
        omega
      · rw [h1] at hstep; cases hstep
      · rw [h1] at hstep; cases hstep
    | ok st =>
      rw [hc] at h
      simp only at h
      by_cases hz : st.parenBalance = 0
      · have hb : ¬((st.parenBalance != 0) = true) := by simp [hz]
        rw [if_neg hb, drainOps_of_balanced (convLoop_parenInv hc) hz] at h
        cases h
      · exact Or.inr ⟨st, rfl, hz⟩

/-- Witness of C19: after the tokens `( 3 + ( 4` the counter is 2 and the stack holds two
`(`; the token sequences of `"3 + 4)"` and `"(3 + 4"` fail at the two checks. -/
theorem C19_paren_counter_witness :
    ((2 : Int) = ([str "(", str "+", str "("].count ['('] : Nat) ∧
      [')'] ∉ [str "(", str "+", str "("] ∧
      (¬((2 : Int) - 1 < 0) →
        (popToParen [str "(", str "+", str "("] [str "3", str "4"]).2 ≠ []) ∧
      ((2 : Int) = 0 → drainOps [str "(", str "+", str "("] [str "3", str "4"]
        = .ok ([str "3", str "4"] ++ [str "(", str "+", str "("]))) ∧
    ((∃ pre post st, [str "3", str "+", str "4", str ")"] = pre ++ [')'] :: post ∧
        convLoop none pre initConv = .ok st ∧ st.parenBalance - 1 < 0) ∨
      (∃ st, convLoop none [str "3", str "+", str "4", str ")"] initConv = .ok st ∧
        st.parenBalance ≠ 0)) :=
  ⟨(C19_paren_counter []).1 [str "(", str "3", str "+", str "(", str "4"]
      { output := [str "3", str "4"], ops := [str "(", str "+", str "("], parenBalance := 2 }
      (by decide),
   (C19_paren_counter [str "3", str "+", str "4", str ")"]).2 (by decide)⟩

/-! ## The characters of the tokens -/

theorem flatten_flushNum (tokens : List Str) (num : Str) :
    (flushNum tokens num).flatten = tokens.flatten ++ num := by
  by_cases h : num = []
  · subst h; simp
  · rw [flushNum_of_ne_nil _ h]; simp

theorem scanStep_chars {c : Char} {st st1 : ScanState} (h : scanStep c st = .ok st1) :
    st1.1.flatten ++ st1.2 = st.1.flatten ++ st.2 ++ [c].filter (fun d => d != ' ') := by
  rcases scanStep_cases c st with ⟨h0, h1⟩ | ⟨_, _, h1⟩ | ⟨_, _, hc, h1⟩ |
      ⟨_, _, hc, _, h1⟩ | ⟨_, _, hc, _, _, h1⟩ | ⟨_, _, h1⟩ <;> rw [h1] at h <;> cases h
  · have hc : c ≠ ' ' := by intro h2; subst h2; exact absurd h0 (by decide)
    simp [hc]
  · subst hc
    simp [flatten_flushNum]
  · subst hc
    simp [flatten_flushNum]
  · simp [flatten_flushNum, hc]

theorem scanAll_chars (s : Str) :
    ∀ (st : ScanState) (T : List Str), scanAll s st = .ok T →
      T.flatten = st.1.flatten ++ st.2 ++ s.filter (fun d => d != ' ') := by
  induction s with
  | nil =>
    intro st T h
    rw [scanAll_nil, scanEnd_ok_iff] at h
    rw [h.2, flatten_flushNum]; simp
  | cons c rest ih =>
    intro st T h
    rw [scanAll_cons] at h
    cases hs : scanStep c st with
    | error e => rw [hs] at h; cases h
    | ok st1 =>
      rw [hs] at h
      rw [ih st1 T h, scanStep_chars hs]
      have : (c :: rest).filter (fun d => d != ' ')
          = [c].filter (fun d => d != ' ') ++ rest.filter (fun d => d != ' ') := by
        rw [← List.filter_append]; rfl
      rw [this, List.append_assoc]

theorem ne_nil_of_tokClass {t : Str} (h : tokClass t = true) : t ≠ [] := by
  intro h0; subst h0; revert h; decide

/-- Claim C20. `tokenize` loses and invents no characters: when it succeeds, no emitted token
is empty and the emitted tokens, concatenated in order, are the input string with its space
characters removed. -/
theorem C20_tokens_cover_input (input : Str) (tokens : List Str)
    (h : tokenize input = .ok tokens) :
    (∀ t ∈ tokens, t ≠ []) ∧ tokens.flatten = input.filter (fun c => c != ' ') := by
  constructor
  · intro t ht
    exact ne_nil_of_tokClass ((tokenize_inv h).1 t ht)
  · rw [tokenize_eq_scanAll] at h
    have := scanAll_chars input ([], []) tokens h
    simpa using this

/-- Witness of C20 on `"(-5 + 3) * 2.5"`. -/
theorem C20_tokens_cover_input_witness :
    (str "(-5 + 3) * 2.5").filter (fun c => c != ' ') = str "(-5+3)*2.5" ∧
    ((∀ t ∈ [str "(", str "-5", str "+", str "3", str ")", str "*", str "2.5"], t ≠ []) ∧
      [str "(", str "-5", str "+", str "3", str ")", str "*", str "2.5"].flatten
        = (str "(-5 + 3) * 2.5").filter (fun c => c != ' ')) :=
  ⟨by decide,
   C20_tokens_cover_input (str "(-5 + 3) * 2.5")
     [str "(", str "-5", str "+", str "3", str ")", str "*", str "2.5"] (by decide)⟩

end Calculator
